import Mathlib

/-!
Verification of the monitor-core repository: a shallow embedding of the
ingest queue, the batch flusher, the analytics query compiler
(services/analytics.go, services/queue.go, the batcher) and the
routes/analytics.go time parsing, together with proofs of the frozen
claims about them.

Time values are modelled as `Int` nanoseconds since the Unix epoch in UTC,
matching the semantics of the Go `time` package restricted to UTC: the
repository parses RFC 3339 instants, stores `DateTime64(3, UTC)` values,
and performs calendar arithmetic through `time.Date`, `AddDate`,
`Weekday`, `Truncate` and `Unix`, whose UTC behaviour is embedded below
through the standard proleptic-Gregorian conversions.
-/

/-! ## Time constants (UTC, nanoseconds since the Unix epoch) -/

def nsPerSec : Int := 1000000000

def nsPerMinute : Int := 60 * nsPerSec

def nsPerHour : Int := 3600 * nsPerSec

def nsPerDay : Int := 86400 * nsPerSec

def nsPerWeek : Int := 7 * nsPerDay

/-- Day index of an instant: floor of nanoseconds divided by a day;
the UTC calendar day that contains a Go `time.Time`. -/
def dayIndex (t : Int) : Int := t / nsPerDay

/-- Nanoseconds into the day of an instant. -/
def timeOfDay (t : Int) : Int := t % nsPerDay

/-! ## Civil calendar: UTC semantics of the Go `time` package accessors

`civilFromDays` recovers `(Year, Month, Day)` from a day index (semantics
of `t.Year()`, `t.Month()`, `t.Day()` of the Go time package for a UTC
time), and `daysFromCivil` is the day index of a possibly denormalised
civil date (semantics of `time.Date(y, m, d, 0, 0, 0, 0, time.UTC)`,
which folds an out-of-range month or day exactly as these functions do).
The algorithms are the standard proleptic-Gregorian conversions. -/

/-- Civil date (year, month, day) of a day index (days since 1970-01-01). -/
def civilFromDays (z : Int) : Int × Int × Int :=
  let zs := z + 719468
  let era := zs / 146097
  let doe := zs - era * 146097
  let yoe := (doe - doe / 1460 + doe / 36524 - doe / 146096) / 365
  let y := yoe + era * 400
  let doy := doe - (365 * yoe + yoe / 4 - yoe / 100)
  let mp := (5 * doy + 2) / 153
  let d := doy - (153 * mp + 2) / 5 + 1
  let m := if mp < 10 then mp + 3 else mp - 9
  (if m ≤ 2 then y + 1 else y, m, d)

/-- Day index of a civil date whose month is already in `[1, 12]`;
linear in the day argument, so an out-of-range day denormalises exactly
as the Go `time.Date` normalisation does. -/
def daysFromCivilRaw (y m d : Int) : Int :=
  let yr := if m ≤ 2 then y - 1 else y
  let era := yr / 400
  let yoe := yr - era * 400
  let mp := if m > 2 then m - 3 else m + 9
  let doy := (153 * mp + 2) / 5 + d - 1
  let doe := 365 * yoe + yoe / 4 - yoe / 100 + doy
  era * 146097 + doe - 719468

/-- Month normalisation of the Go `time.Date` function: a month outside
`[1, 12]` is folded into the year. -/
def normYM (y m : Int) : Int × Int :=
  (y + (m - 1) / 12, (m - 1) % 12 + 1)

/-- Day index of an arbitrary civil date, normalising the month first. -/
def daysFromCivil (y m d : Int) : Int :=
  daysFromCivilRaw (normYM y m).1 (normYM y m).2 d

/-- Midnight of a civil date: the UTC semantics of
`time.Date(y, m, d, 0, 0, 0, 0, loc)` as used by the repository code. -/
def timeDate (y m d : Int) : Int := nsPerDay * daysFromCivil y m d

/-- UTC semantics of the Go `Time.AddDate(years, months, days)` method:
read the civil date, shift the fields, renormalise, keep the clock. -/
def addDate (t dy dm dd : Int) : Int :=
  nsPerDay * daysFromCivil ((civilFromDays (dayIndex t)).1 + dy)
    ((civilFromDays (dayIndex t)).2.1 + dm) ((civilFromDays (dayIndex t)).2.2 + dd) +
    timeOfDay t

/-- UTC semantics of the Go `Time.Weekday` method: 0 is Sunday;
1970-01-01 was a Thursday (weekday 4). -/
def goWeekday (t : Int) : Int := (dayIndex t + 4) % 7

/-- The Go zero `time.Time` (January 1 of year 1, 00:00:00 UTC) as
nanoseconds since the Unix epoch; `Time.IsZero` compares against this. -/
def goTimeZero : Int := nsPerDay * daysFromCivil 1 1 1

/-! ## Correctness of the civil conversions

The year-of-era selection inside `civilFromDays` is the one part that
resists purely symbolic reasoning; it is settled by a finite check over
the 146097 days of one 400-year era, reduced to 400 endpoint evaluations
through a monotonicity argument. -/

/-- Year-of-era selection, on naturals, as computed by `civilFromDays`. -/
def yoeFN (n : Nat) : Nat := ((n + n / 36524) - (n / 1460 + n / 146096)) / 365

/-- First day-of-era of a year-of-era. -/
def dStartN (y : Nat) : Nat := 365 * y + y / 4 - y / 100

/-- Last day-of-era belonging to a year-of-era. -/
def epHi (y : Nat) : Nat := if y = 399 then 146096 else dStartN (y + 1) - 1

/-- Endpoint check: the year-of-era formula is correct at both ends of
each year-of-era. -/
def epCheck (y : Nat) : Bool := (yoeFN (dStartN y) == y) && (yoeFN (epHi y) == y)

/-- Balanced bounded check of a Boolean predicate on a range of naturals;
the divide-and-conquer layout keeps kernel reduction shallow. -/
def checkRange (f : Nat → Bool) : Nat → Nat → Nat → Bool
  | 0, _, _ => false
  | fuel + 1, lo, hi =>
    if hi ≤ lo then true
    else if hi = lo + 1 then f lo
    else checkRange f fuel lo ((lo + hi) / 2) && checkRange f fuel ((lo + hi) / 2) hi

theorem checkRange_sound (f : Nat → Bool) :
    ∀ fuel lo hi, checkRange f fuel lo hi = true →
      ∀ n, lo ≤ n → n < hi → f n = true := by
  intro fuel
  induction fuel with
  | zero => intro lo hi h; simp [checkRange] at h
  | succ fuel ih =>
    intro lo hi h n hlo hhi
    rw [checkRange] at h
    by_cases h1 : hi ≤ lo
    · omega
    · rw [if_neg h1] at h
      by_cases h2 : hi = lo + 1
      · rw [if_pos h2] at h
        have hn : n = lo := by omega
        rw [hn]; exact h
      · rw [if_neg h2, Bool.and_eq_true] at h
        by_cases hc : n < (lo + hi) / 2
        · exact ih lo ((lo + hi) / 2) h.1 n hlo hc
        · exact ih ((lo + hi) / 2) hi h.2 n (by omega) hhi

theorem yoeFN_mono : ∀ a b : Nat, a ≤ b → yoeFN a ≤ yoeFN b := by
  intro a b hab
  have hnum : (a + a / 36524) - (a / 1460 + a / 146096) ≤
      (b + b / 36524) - (b / 1460 + b / 146096) := by omega
  exact Nat.div_le_div_right hnum

theorem epCheck_all : ∀ y, y < 400 → epCheck y = true := by
  have h : checkRange epCheck 12 0 400 = true := by decide
  exact fun y hy => checkRange_sound epCheck 12 0 400 h y (Nat.zero_le y) hy

theorem yoeBounds (n : Nat) (hn : n < 146097) :
    dStartN (yoeFN n) ≤ n ∧ n ≤ dStartN (yoeFN n) + 365 ∧ yoeFN n ≤ 399 := by
  have hep : ∀ y, y < 400 → yoeFN (dStartN y) = y ∧ yoeFN (epHi y) = y := by
    intro y hy
    have := epCheck_all y hy
    rw [epCheck, Bool.and_eq_true, Nat.beq_eq_true_eq, Nat.beq_eq_true_eq] at this
    exact this
  have h399 : yoeFN 146096 = 399 := by
    have := (hep 399 (by norm_num)).2
    simpa [epHi] using this
  have hylast : yoeFN n ≤ 399 := by
    have := yoeFN_mono n 146096 (by omega)
    omega
  refine ⟨?_, ?_, hylast⟩
  · by_contra hlt
    push_neg at hlt
    obtain ⟨k, hk⟩ : ∃ k, yoeFN n = k + 1 := by
      refine ⟨yoeFN n - 1, ?_⟩
      rcases Nat.eq_zero_or_pos (yoeFN n) with h0 | h1
      · rw [h0] at hlt; simp [dStartN] at hlt
      · omega
    have hk399 : k ≠ 399 := by omega
    have hhi : epHi k = dStartN (k + 1) - 1 := by simp only [epHi, if_neg hk399]
    have hle : n ≤ epHi k := by rw [hhi, ← hk]; omega
    have hm := yoeFN_mono n (epHi k) hle
    have he2 := (hep k (by omega)).2
    omega
  · by_cases hy : yoeFN n = 399
    · have : dStartN 399 = 145731 := by norm_num [dStartN]
      rw [hy]
      omega
    · by_contra hgt
      push_neg at hgt
      have hstep : dStartN (yoeFN n + 1) ≤ dStartN (yoeFN n) + 366 := by
        simp only [dStartN]
        omega
      have hge : dStartN (yoeFN n + 1) ≤ n := by omega
      have := yoeFN_mono (dStartN (yoeFN n + 1)) n hge
      have := (hep (yoeFN n + 1) (by omega)).1
      omega

theorem doe_roundtrip (doe yoe doy mp d m : Int) (h0 : 0 ≤ doe) (h1 : doe < 146097)
    (hyoe : yoe = (doe - doe / 1460 + doe / 36524 - doe / 146096) / 365)
    (hdoy : doy = doe - (365 * yoe + yoe / 4 - yoe / 100))
    (hmp : mp = (5 * doy + 2) / 153)
    (hd : d = doy - (153 * mp + 2) / 5 + 1)
    (hm : m = if mp < 10 then mp + 3 else mp - 9) :
    (0 ≤ yoe ∧ yoe ≤ 399) ∧
    365 * yoe + yoe / 4 - yoe / 100 + ((153 * mp + 2) / 5 + d - 1) = doe ∧
    (1 ≤ m ∧ m ≤ 12 ∧ 1 ≤ d ∧ d ≤ 31) ∧
    ((m ≤ 2 ∧ 10 ≤ mp ∧ m + 9 = mp) ∨ (2 < m ∧ mp < 10 ∧ m - 3 = mp)) := by
  have hn := yoeBounds doe.toNat (by omega)
  simp only [yoeFN, dStartN] at hn
  have hnum : doe - doe / 1460 + doe / 36524 - doe / 146096 =
      ((doe.toNat + doe.toNat / 36524) - (doe.toNat / 1460 + doe.toNat / 146096) : Nat) := by
    omega
  have hyoeN : yoe = (((doe.toNat + doe.toNat / 36524) -
      (doe.toNat / 1460 + doe.toNat / 146096)) / 365 : Nat) := by
    rw [hyoe, hnum]
    omega
  have hy0 : 0 ≤ yoe ∧ yoe ≤ 399 := by omega
  have hq4 : yoe / 4 =
      ((((doe.toNat + doe.toNat / 36524) - (doe.toNat / 1460 + doe.toNat / 146096)) / 365) / 4 : Nat) := by
    omega
  have hq100 : yoe / 100 =
      ((((doe.toNat + doe.toNat / 36524) - (doe.toNat / 1460 + doe.toNat / 146096)) / 365) / 100 : Nat) := by
    omega
  have hdoyB : 0 ≤ doy ∧ doy ≤ 365 := by
    rw [hdoy]
    omega
  have hmpB : 0 ≤ mp ∧ mp ≤ 11 := by
    rw [hmp]
    omega
  have hdB : 1 ≤ d ∧ d ≤ 31 ∧ (153 * mp + 2) / 5 + d - 1 = doy := by
    rw [hd, hmp]
    omega
  have hmB : (1 ≤ m ∧ m ≤ 12) ∧
      ((m ≤ 2 ∧ 10 ≤ mp ∧ m + 9 = mp) ∨ (2 < m ∧ mp < 10 ∧ m - 3 = mp)) := by
    by_cases hc : mp < 10
    · rw [hm, if_pos hc]
      exact ⟨⟨by omega, by omega⟩, Or.inr ⟨by omega, hc, by omega⟩⟩
    · rw [hm, if_neg hc]
      exact ⟨⟨by omega, by omega⟩, Or.inl ⟨by omega, by omega, by omega⟩⟩
  refine ⟨hy0, ?_, ⟨hmB.1.1, hmB.1.2, hdB.1, hdB.2.1⟩, hmB.2⟩
  rw [hdB.2.2, hdoy]
  omega

theorem roundtrip_named (z zs era doe yoe doy mp d m y : Int)
    (hzs : zs = z + 719468) (hera : era = zs / 146097) (hdoe : doe = zs - era * 146097)
    (hyoe : yoe = (doe - doe / 1460 + doe / 36524 - doe / 146096) / 365)
    (hdoy : doy = doe - (365 * yoe + yoe / 4 - yoe / 100))
    (hmp : mp = (5 * doy + 2) / 153)
    (hd : d = doy - (153 * mp + 2) / 5 + 1)
    (hm : m = if mp < 10 then mp + 3 else mp - 9)
    (hy : y = yoe + era * 400) :
    daysFromCivilRaw (if m ≤ 2 then y + 1 else y) m d = z ∧
    1 ≤ m ∧ m ≤ 12 ∧ 1 ≤ d ∧ d ≤ 31 := by
  have key := doe_roundtrip doe yoe doy mp d m (by omega) (by omega) hyoe hdoy hmp hd hm
  obtain ⟨hy0, hrec, hrange, hcase⟩ := key
  simp only [daysFromCivilRaw]
  refine ⟨?_, hrange.1, hrange.2.1, hrange.2.2.1, hrange.2.2.2⟩
  rcases hcase with ⟨h2, hmp10, heq⟩ | ⟨h2, hmp10, heq⟩
  · rw [if_pos h2, if_pos h2, if_neg (not_lt.mpr h2)]
    rw [show y + 1 - 1 = yoe + era * 400 from by omega]
    rw [show (yoe + era * 400) / 400 = era from by omega]
    rw [show yoe + era * 400 - era * 400 = yoe from by ring]
    rw [show (153 * (m + 9) + 2 : Int) = 153 * mp + 2 from by omega]
    omega
  · rw [if_neg (not_le.mpr h2), if_neg (not_le.mpr h2), if_pos h2]
    rw [show y = yoe + era * 400 from hy]
    rw [show (yoe + era * 400) / 400 = era from by omega]
    rw [show yoe + era * 400 - era * 400 = yoe from by ring]
    rw [show (153 * (m - 3) + 2 : Int) = 153 * mp + 2 from by omega]
    omega

/-- The civil conversion round-trip: converting a day index to a civil
date and back is the identity, and the produced month lies in `[1, 12]`
with the day in `[1, 31]`. -/
theorem daysFromCivilRaw_civilFromDays (z : Int) :
    daysFromCivilRaw (civilFromDays z).1 (civilFromDays z).2.1 (civilFromDays z).2.2 = z ∧
    1 ≤ (civilFromDays z).2.1 ∧ (civilFromDays z).2.1 ≤ 12 ∧
    1 ≤ (civilFromDays z).2.2 ∧ (civilFromDays z).2.2 ≤ 31 := by
  simp only [civilFromDays]
  exact roundtrip_named z _ _ _ _ _ _ _ _ _ rfl rfl rfl rfl rfl rfl rfl rfl rfl

theorem normYM_id (y m : Int) (h1 : 1 ≤ m) (h2 : m ≤ 12) : normYM y m = (y, m) := by
  simp only [normYM, Prod.mk.injEq]
  constructor <;> omega

theorem daysFromCivil_eq_raw (y m d : Int) (h1 : 1 ≤ m) (h2 : m ≤ 12) :
    daysFromCivil y m d = daysFromCivilRaw y m d := by
  simp only [daysFromCivil, normYM_id y m h1 h2]

theorem daysFromCivilRaw_linear (y m d k : Int) :
    daysFromCivilRaw y m (d + k) = daysFromCivilRaw y m d + k := by
  simp only [daysFromCivilRaw]
  split_ifs <;> ring

theorem daysFromCivil_shift (z k : Int) :
    daysFromCivil (civilFromDays z).1 (civilFromDays z).2.1 ((civilFromDays z).2.2 + k) =
      z + k := by
  obtain ⟨hrt, hm1, hm2, _, _⟩ := daysFromCivilRaw_civilFromDays z
  rw [daysFromCivil_eq_raw _ _ _ hm1 hm2, daysFromCivilRaw_linear, hrt]

theorem dayIndex_decomp (t : Int) : t = nsPerDay * dayIndex t + timeOfDay t ∧
    0 ≤ timeOfDay t ∧ timeOfDay t < nsPerDay := by
  simp only [dayIndex, timeOfDay, nsPerDay, nsPerSec]
  omega

theorem addDate_days (t k : Int) : addDate t 0 0 k = t + k * nsPerDay := by
  simp only [addDate, add_zero]
  rw [daysFromCivil_shift]
  have := dayIndex_decomp t
  simp only [nsPerDay, nsPerSec] at *
  omega

theorem month_step (y m d : Int) (h1 : 1 ≤ m) (h2 : m ≤ 12) :
    daysFromCivilRaw y m d < daysFromCivil y (m + 1) d := by
  interval_cases m <;>
    (simp only [daysFromCivil, normYM, daysFromCivilRaw]; norm_num <;> omega)

theorem addDate_month_lt (t : Int) : t < addDate t 0 1 0 := by
  obtain ⟨hrt, hm1, hm2, _, _⟩ := daysFromCivilRaw_civilFromDays (dayIndex t)
  have hstep := month_step (civilFromDays (dayIndex t)).1 (civilFromDays (dayIndex t)).2.1
    (civilFromDays (dayIndex t)).2.2 hm1 hm2
  rw [hrt] at hstep
  simp only [addDate, add_zero]
  have hd := dayIndex_decomp t
  have hpos : (0 : Int) < nsPerDay := by norm_num [nsPerDay, nsPerSec]
  nlinarith [hstep, hd.1, hd.2.1, hd.2.2]

/-! ## Data model (structs/analytics.go, structs event types)

Go `time.Time` fields are `Int` nanoseconds; the JSON zero value is
`goTimeZero`. The `from`/`to` fields are named `fromT`/`toT` because
`from` is a Lean keyword. Filter values (`any` in Go) are either a
scalar (rendered as its `%v` text) or a list of strings. -/

inductive AggregationType
  | count | sum | avg | min | max | countUnique | p50 | p90 | p95 | p99
deriving DecidableEq

inductive IntervalType
  | minute | hour | day | week | month
deriving DecidableEq

inductive GoValue
  | str (s : String)
  | list (vs : List String)
deriving DecidableEq

structure QueryFilter where
  field : String
  operator : String
  value : GoValue
deriving DecidableEq

/-- A positional bind argument handed to the store together with the SQL. -/
inductive SqlArg
  | gv (v : GoValue)
  | timeA (t : Int)
deriving DecidableEq

structure AnalyticsQuery where
  aggregation : AggregationType
  field : String
  groupBy : List String
  filters : List QueryFilter
  fromT : Int
  toT : Int
  orderBy : String
  orderDesc : Bool
  limit : Int

structure TimeSeriesQuery where
  aggregation : AggregationType
  field : String
  interval : IntervalType
  groupBy : List String
  filters : List QueryFilter
  fromT : Int
  toT : Int
  fillZeros : Bool

structure GaugeQuery where
  aggregation : AggregationType
  field : String
  filters : List QueryFilter
  fromT : Int
  toT : Int

structure CompareQuery where
  aggregation : AggregationType
  field : String
  filters : List QueryFilter
  fromT : Int
  toT : Int
  compareFrom : Int
  compareTo : Int

structure CompareResult where
  current : Rat
  previous : Rat
  change : Rat
  changePercent : Rat

structure DataPoint where
  timestamp : Int
  value : Rat
deriving DecidableEq

structure TimeSeries where
  name : String
  dataPoints : List DataPoint
deriving DecidableEq

/-! ## Queue (services/queue.go)

The Go queue is a buffered channel of events plus two `atomic.Int64`
counters. Its state is the channel content (a FIFO list), the channel
capacity, and the counters; `Enqueue` is the `select`/`default`
non-blocking send, modelled as a total function on states. 64-bit
counter overflow is made explicit through `wrap64`. -/

structure Event where
  name : String
deriving DecidableEq

/-- Two's-complement wrap of a 64-bit signed counter. -/
def wrap64 (n : Int) : Int := (n + 2 ^ 63) % 2 ^ 64 - 2 ^ 63

structure Queue where
  capacity : Nat
  events : List Event
  enqueued : Int
  dropped : Int

/-- `NewQueue(size)`: empty channel of the given capacity, zero counters. -/
def NewQueue (size : Nat) : Queue := ⟨size, [], 0, 0⟩

/-- `Queue.Enqueue`: non-blocking send; appends and bumps `enqueued` when
the channel has room, otherwise drops the incoming event and bumps
`dropped`. Returns the updated state and the Go return value. -/
def Queue.Enqueue (q : Queue) (e : Event) : Queue × Bool :=
  if q.events.length < q.capacity then
    ({ q with events := q.events ++ [e], enqueued := wrap64 (q.enqueued + 1) }, true)
  else
    ({ q with dropped := wrap64 (q.dropped + 1) }, false)

/-- `Queue.Stats`: the two counters and the pending length. -/
def Queue.Stats (q : Queue) : Int × Int × Nat := (q.enqueued, q.dropped, q.events.length)

/-! ## Batcher (the batch flusher)

`flush` hands the batch to the writer, logs either outcome, and resets
the batch to length zero in both branches; its return type carries no
error, which is how the Go method signature (`func (b *Batcher) flush`)
propagates nothing to the caller. The writer outcome is passed in as the
result of the `WriteBatch` call. -/

structure Batcher where
  batchSize : Nat
  batch : List Event

def Batcher.flush (b : Batcher) (writeBatch : List Event → Except String Unit) : Batcher :=
  if b.batch.length = 0 then b
  else
    match writeBatch b.batch with
    | .error _ => { b with batch := [] }
    | .ok _ => { b with batch := [] }

/-! ## Compare queries (QueryCompare, services/analytics.go lines 842-893)

The two gauge executions are abstracted as an oracle from gauge queries
to the scalar the store returns; float64 arithmetic on the results is
modelled over `Rat`, faithful to the arithmetic structure of the code. -/

def QueryCompare (gauge : GaugeQuery → Rat) (q : CompareQuery) : CompareResult :=
  let compareTo := if q.compareFrom = goTimeZero ∨ q.compareTo = goTimeZero
    then q.fromT else q.compareTo
  let compareFrom := if q.compareFrom = goTimeZero ∨ q.compareTo = goTimeZero
    then q.fromT - (q.toT - q.fromT) else q.compareFrom
  let current := gauge ⟨q.aggregation, q.field, q.filters, q.fromT, q.toT⟩
  let previous := gauge ⟨q.aggregation, q.field, q.filters, compareFrom, compareTo⟩
  let change := current - previous
  let changePercent := if previous ≠ 0 then (change / previous) * 100 else 0
  ⟨current, previous, change, changePercent⟩

/-! ## Identifier safety and field expressions (services/analytics.go) -/

/-- A single quote character, used to build SQL string literals. -/
def sqlQuote : String := (Char.ofNat 39).toString

def isIdentStart (c : Char) : Bool :=
  (('a' ≤ c && c ≤ 'z') || ('A' ≤ c && c ≤ 'Z')) || c = '_'

def isIdentChar (c : Char) : Bool :=
  isIdentStart c || ('0' ≤ c && c ≤ '9')

/-- `safeIdentifierRegex.MatchString`: full match of
`^[a-zA-Z_][a-zA-Z0-9_]*$`. -/
def safeIdentifierRegex (s : String) : Bool :=
  match s.toList with
  | [] => false
  | c :: cs => isIdentStart c && cs.all isIdentChar

/-- `validGroupByColumns`: the allowlist of plain columns usable in
GROUP BY (and as plain aggregation fields). -/
def validGroupByColumns : List String :=
  ["service", "env", "job_id", "request_id", "trace_id", "user_id", "name", "level"]

/-- Modelled from the spec: `validColumns`, the allowlist of plain
columns accepted in filter positions, is declared in a repository file
that is not part of the provided sources (only its use in
`buildSingleFilter` is). Per the specification it contains the fields of
the events table accepted in filters and time-range clauses. -/
def validColumns : List String :=
  ["timestamp", "service", "env", "job_id", "request_id", "trace_id", "name", "level"]

/-- Modelled from the spec: the `eventsTable()` helper is declared in a
repository file that is not part of the provided sources; per the
specification and schema it names the events table of the configured
database, with no user-controlled content. -/
def eventsTable : String := "monitor.events"

def jsonExtractString (key : String) : String :=
  "JSONExtractString(data, " ++ sqlQuote ++ key ++ sqlQuote ++ ")"

def jsonExtractFloat (key : String) : String :=
  "toFloat64OrNull(JSONExtractRaw(data, " ++ sqlQuote ++ key ++ sqlQuote ++ "))"

/-- `strings.HasPrefix(s, "data.")`, computed on the character list so
that concrete instances reduce in the kernel. -/
def startsWithData (s : String) : Bool := "data.".toList.isPrefixOf s.toList

/-- `strings.TrimPrefix(s, "data.")` for a `data.`-prefixed `s`: drop
the five prefix characters. -/
def trimData (s : String) : String := ⟨s.toList.drop 5⟩

/-- `buildFieldExpr`: column from the allowlist, or a validated
`data.<key>` JSON string extraction; the key is
`strings.TrimPrefix(field, "data.")`, that is `trimData field`. -/
def buildFieldExpr (field : String) : Except String String :=
  if startsWithData field then
    if safeIdentifierRegex (trimData field) then .ok (jsonExtractString (trimData field))
    else .error ("invalid data field name: " ++ trimData field)
  else if validGroupByColumns.contains field then .ok field
  else .error ("invalid field: " ++ field)

/-- `buildNumericFieldExpr`: numeric aggregation fields must live under
`data.` and pass the same identifier check. -/
def buildNumericFieldExpr (field : String) : Except String String :=
  if startsWithData field then
    if safeIdentifierRegex (trimData field) then .ok (jsonExtractFloat (trimData field))
    else .error ("invalid data field name: " ++ trimData field)
  else .error "numeric aggregation only supported on data.* fields"

/-- `buildAggregationExpr`: map the aggregation kind to its SQL snippet. -/
def buildAggregationExpr (agg : AggregationType) (field : String) : Except String String :=
  match agg with
  | .count => .ok "count()"
  | .countUnique =>
    if field = "" then .error "field is required for count_unique aggregation"
    else (buildFieldExpr field).map (fun col => "uniq(" ++ col ++ ")")
  | .sum =>
    if field = "" then .error "field is required for sum aggregation"
    else (buildNumericFieldExpr field).map (fun col => "sum(" ++ col ++ ")")
  | .avg =>
    if field = "" then .error "field is required for avg aggregation"
    else (buildNumericFieldExpr field).map (fun col => "avg(" ++ col ++ ")")
  | .min =>
    if field = "" then .error "field is required for min aggregation"
    else (buildNumericFieldExpr field).map (fun col => "min(" ++ col ++ ")")
  | .max =>
    if field = "" then .error "field is required for max aggregation"
    else (buildNumericFieldExpr field).map (fun col => "max(" ++ col ++ ")")
  | .p50 =>
    if field = "" then .error "field is required for p50 aggregation"
    else (buildNumericFieldExpr field).map (fun col => "quantile(0.5)(" ++ col ++ ")")
  | .p90 =>
    if field = "" then .error "field is required for p90 aggregation"
    else (buildNumericFieldExpr field).map (fun col => "quantile(0.9)(" ++ col ++ ")")
  | .p95 =>
    if field = "" then .error "field is required for p95 aggregation"
    else (buildNumericFieldExpr field).map (fun col => "quantile(0.95)(" ++ col ++ ")")
  | .p99 =>
    if field = "" then .error "field is required for p99 aggregation"
    else (buildNumericFieldExpr field).map (fun col => "quantile(0.99)(" ++ col ++ ")")

/-- The `group_i` positional alias. -/
def groupAlias (i : Nat) : String := "group_" ++ toString i

/-- The per-field expression of the `buildGroupByExprs` loop. -/
def groupByFieldExpr (i : Nat) (g : String) : Except String String :=
  if startsWithData g then
    if safeIdentifierRegex (trimData g) then
      .ok (jsonExtractString (trimData g) ++ " AS " ++ groupAlias i)
    else .error ("invalid data field name: " ++ trimData g)
  else if validGroupByColumns.contains g then .ok (g ++ " AS " ++ groupAlias i)
  else .error ("invalid group by field: " ++ g)

/-- The `buildGroupByExprs` loop, at position `i`. -/
def buildGroupByExprsAux : Nat → List String → Except String (List String × List String)
  | _, [] => .ok ([], [])
  | i, g :: gs => do
    let e ← groupByFieldExpr i g
    let (es, als) ← buildGroupByExprsAux (i + 1) gs
    .ok (e :: es, groupAlias i :: als)

/-- `buildGroupByExprs`: at most 10 fields, each emitted as
`<expr> AS group_i`. -/
def buildGroupByExprs (groupBy : List String) : Except String (List String × List String) :=
  if groupBy.length > 10 then .error "too many group by fields (max 10)"
  else buildGroupByExprsAux 0 groupBy

/-! ## Filter translation (buildSingleFilter, buildFilterClause) -/

/-- Go `fmt` `%v` rendering of a filter value. -/
def goFormatVal : GoValue → String
  | .str s => s
  | .list vs => "[" ++ String.intercalate " " vs ++ "]"

/-- The field-expression part of `buildSingleFilter`: `data.` fields use
the float cast for the numeric comparison operators and the JSON string
extraction otherwise; plain fields must pass the `validColumns` gate. -/
def filterFieldExpr (f : QueryFilter) : Except String String :=
  if startsWithData f.field then
    if safeIdentifierRegex (trimData f.field) then
      if f.operator = "lt" ∨ f.operator = "gt" ∨ f.operator = "lte" ∨ f.operator = "gte" then
        .ok (jsonExtractFloat (trimData f.field))
      else .ok (jsonExtractString (trimData f.field))
    else .error ("invalid data field name: " ++ trimData f.field)
  else if validColumns.contains f.field then .ok f.field
  else .error ("invalid filter field: " ++ f.field)

/-- The operator switch of `buildSingleFilter`: the condition text and
bind arguments for one translated filter, given the field expression. -/
def operatorClause (op : String) (fieldExpr : String) (value : GoValue) :
    Except String (String × List SqlArg) :=
  if op = "eq" ∨ op = "" then .ok (fieldExpr ++ " = ?", [.gv value])
  else if op = "neq" then .ok (fieldExpr ++ " != ?", [.gv value])
  else if op = "lt" then .ok (fieldExpr ++ " < ?", [.gv value])
  else if op = "gt" then .ok (fieldExpr ++ " > ?", [.gv value])
  else if op = "lte" then .ok (fieldExpr ++ " <= ?", [.gv value])
  else if op = "gte" then .ok (fieldExpr ++ " >= ?", [.gv value])
  else if op = "contains" then
    .ok (fieldExpr ++ " LIKE ?", [.gv (.str ("%" ++ goFormatVal value ++ "%"))])
  else if op = "startswith" then
    .ok (fieldExpr ++ " LIKE ?", [.gv (.str (goFormatVal value ++ "%"))])
  else if op = "endswith" then
    .ok (fieldExpr ++ " LIKE ?", [.gv (.str ("%" ++ goFormatVal value))])
  else if op = "in" then
    match value with
    | .list vs =>
      .ok (fieldExpr ++ " IN (" ++ String.intercalate ", " (vs.map (fun _ => "?")) ++ ")",
        vs.map (fun v => SqlArg.gv (.str v)))
    | .str _ => .error "in operator requires array value"
  else .error ("unsupported operator: " ++ op)

/-- `buildSingleFilter`: translate one filter into a condition and its
bind arguments. -/
def buildSingleFilter (f : QueryFilter) : Except String (String × List SqlArg) := do
  let fieldExpr ← filterFieldExpr f
  operatorClause f.operator fieldExpr f.value

/-- The condition-collecting loop of `buildFilterClause`. -/
def buildFilterConditions : List QueryFilter → Except String (List String × List SqlArg)
  | [] => .ok ([], [])
  | f :: fs => do
    let (c, a) ← buildSingleFilter f
    let (cs, rest) ← buildFilterConditions fs
    .ok (c :: cs, a ++ rest)

/-- `buildFilterClause`: AND-join of the translated conditions. -/
def buildFilterClause (filters : List QueryFilter) : Except String (String × List SqlArg) :=
  if filters.length = 0 then .ok ("", [])
  else (buildFilterConditions filters).map
    (fun p => (String.intercalate " AND " p.1, p.2))

/-! ## Time bucketing (truncateTime, advanceTime)

`time.Truncate` for minute and hour rounds down since the Go zero time;
the zero time sits on an hour boundary, so on UTC instants this is floor
division of epoch nanoseconds. Day, week and month truncation go through
`time.Date` on the civil fields, and advancing uses `AddDate`, both
embedded above. The handlers only ever pass one of the five valid
interval kinds, so the Go default branches are unreachable and the
interval is an inductive type here. -/

def truncateTime (t : Int) (interval : IntervalType) : Int :=
  match interval with
  | .minute => nsPerMinute * (t / nsPerMinute)
  | .hour => nsPerHour * (t / nsPerHour)
  | .day =>
    timeDate (civilFromDays (dayIndex t)).1 (civilFromDays (dayIndex t)).2.1
      (civilFromDays (dayIndex t)).2.2
  | .week =>
    let w := goWeekday t
    let wd := if w = 0 then 7 else w
    timeDate (civilFromDays (dayIndex t)).1 (civilFromDays (dayIndex t)).2.1
      ((civilFromDays (dayIndex t)).2.2 - (wd - 1))
  | .month => timeDate (civilFromDays (dayIndex t)).1 (civilFromDays (dayIndex t)).2.1 1

def advanceTime (t : Int) (interval : IntervalType) : Int :=
  match interval with
  | .minute => t + nsPerMinute
  | .hour => t + nsPerHour
  | .day => addDate t 0 0 1
  | .week => addDate t 0 0 7
  | .month => addDate t 0 1 0

theorem advanceTime_gt (t : Int) (interval : IntervalType) : t < advanceTime t interval := by
  cases interval with
  | minute => simp only [advanceTime]; norm_num [nsPerMinute, nsPerSec]
  | hour => simp only [advanceTime]; norm_num [nsPerHour, nsPerSec]
  | day =>
    simp only [advanceTime, addDate_days]
    norm_num [nsPerDay, nsPerSec]
  | week =>
    simp only [advanceTime, addDate_days]
    norm_num [nsPerDay, nsPerSec]
  | month => exact addDate_month_lt t

/-! ## Zero fill (fillTimeSeriesZeros) -/

/-- `Time.Unix()`: whole seconds since the epoch (floor). -/
def goUnix (t : Int) : Int := t / nsPerSec

/-- The value the zero-fill loop emits for a bucket: the `existing` map
is keyed by `Unix()` seconds with later points overwriting earlier ones,
and a missing key yields 0. -/
def fillValue (points : List DataPoint) (current : Int) : Rat :=
  match (points.filter (fun p => goUnix p.timestamp = goUnix current)).getLast? with
  | some p => p.value
  | none => 0

/-- The generation loop of `fillTimeSeriesZeros`: emit buckets from
`current` while it does not pass `end`, advancing by one interval. -/
def fillLoop (points : List DataPoint) (toT : Int) (interval : IntervalType)
    (current : Int) : List DataPoint :=
  if current > toT then []
  else ⟨current, fillValue points current⟩ :: fillLoop points toT interval (advanceTime current interval)
termination_by (toT + 1 - current).toNat
decreasing_by
  have := advanceTime_gt current interval
  omega

def fillTimeSeriesZeros (points : List DataPoint) (fromT toT : Int)
    (interval : IntervalType) : List DataPoint :=
  fillLoop points toT interval (truncateTime fromT interval)

/-- The series post-processing of `QueryTimeSeries` (lines 584-611):
apply zero fill to each series when requested and both bounds are set,
and emit one synthetic zero series when there are no series at all. -/
def finishTimeSeries (raw : List TimeSeries) (q : TimeSeriesQuery) : List TimeSeries :=
  let series := raw.map (fun ts =>
    if q.fillZeros ∧ q.fromT ≠ goTimeZero ∧ q.toT ≠ goTimeZero then
      { ts with dataPoints := fillTimeSeriesZeros ts.dataPoints q.fromT q.toT q.interval }
    else ts)
  if series.length = 0 ∧ q.fillZeros ∧ q.fromT ≠ goTimeZero ∧ q.toT ≠ goTimeZero then
    [{ name := "", dataPoints := fillTimeSeriesZeros [] q.fromT q.toT q.interval }]
  else series

/-! ## Time-series pre-execution guard and SQL synthesis -/

def MaxTimeSeriesPoints : Int := 10000

/-- `90 * 24 * time.Hour` in nanoseconds. -/
def MaxQueryDuration : Int := 90 * 24 * nsPerHour

/-- The nominal step used by the guard of `QueryTimeSeries`
(lines 429-443); the handlers reject unknown intervals beforehand. -/
def guardStep (interval : IntervalType) : Int :=
  match interval with
  | .minute => nsPerMinute
  | .hour => nsPerHour
  | .day => 24 * nsPerHour
  | .week => 7 * 24 * nsPerHour
  | .month => 30 * 24 * nsPerHour

/-- The validation prefix of `QueryTimeSeries` (lines 422-448): with both
bounds set, reject a range beyond 90 days, then reject an estimated
point count beyond the maximum. `int(duration / interval)` is Go
duration division, which truncates toward zero (`Int.tdiv`). -/
def timeSeriesGuard (q : TimeSeriesQuery) : Except String Unit :=
  if q.fromT ≠ goTimeZero ∧ q.toT ≠ goTimeZero then
    if q.toT - q.fromT > MaxQueryDuration then
      .error "time range too large"
    else if Int.tdiv (q.toT - q.fromT) (guardStep q.interval) > MaxTimeSeriesPoints then
      .error "query would return too many data points"
    else .ok ()
  else .ok ()

/-- `buildIntervalExpr`: the bucket expression for each interval kind. -/
def buildIntervalExpr (interval : IntervalType) : String :=
  match interval with
  | .minute => "toStartOfMinute(timestamp)"
  | .hour => "toStartOfHour(timestamp)"
  | .day => "toStartOfDay(timestamp)"
  | .week => "toStartOfWeek(timestamp)"
  | .month => "toStartOfMonth(timestamp)"

/-- The time-range clauses: each bound contributes its clause and bind
argument only when it is set (non-zero). -/
def timeWhereParts (fromT toT : Int) : List String × List SqlArg :=
  ((if fromT ≠ goTimeZero then ["timestamp >= ?"] else []) ++
      (if toT ≠ goTimeZero then ["timestamp <= ?"] else []),
    (if fromT ≠ goTimeZero then [SqlArg.timeA fromT] else []) ++
      (if toT ≠ goTimeZero then [SqlArg.timeA toT] else []))

/-- The WHERE-clause assembly shared verbatim by the query functions:
time range first, then the AND-joined filter clause when filters are
present and the clause is non-empty. -/
def analyticsWhereParts (fromT toT : Int) (filters : List QueryFilter) :
    Except String (List String × List SqlArg) := do
  let (tw, ta) := timeWhereParts fromT toT
  if filters.length > 0 then
    let (fc, fa) ← buildFilterClause filters
    if fc ≠ "" then .ok (tw ++ [fc], ta ++ fa) else .ok (tw, ta)
  else .ok (tw, ta)

/-- The SQL-building part of `QueryTimeSeries` after the guard. -/
def buildTimeSeriesSQL (q : TimeSeriesQuery) : Except String (String × List SqlArg) := do
  timeSeriesGuard q
  let aggExpr ← buildAggregationExpr q.aggregation q.field
  let intervalExpr := buildIntervalExpr q.interval
  let (groupByExprs, aliases) ←
    if q.groupBy.length > 0 then buildGroupByExprs q.groupBy else pure ([], [])
  let selectParts := (intervalExpr ++ " AS bucket") :: (aggExpr ++ " AS value") :: groupByExprs
  let groupByParts := "bucket" :: aliases
  let (whereParts, args) ← analyticsWhereParts q.fromT q.toT q.filters
  let sql := "SELECT " ++ String.intercalate ", " selectParts ++ " FROM " ++ eventsTable
  let sql := if whereParts.length > 0
    then sql ++ " WHERE " ++ String.intercalate " AND " whereParts else sql
  .ok (sql ++ " GROUP BY " ++ String.intercalate ", " groupByParts ++ " ORDER BY bucket ASC",
    args)

/-! ## Analytics SQL synthesis (QueryAnalytics, lines 284-368) -/

/-- The ORDER BY identifier selection of `QueryAnalytics` (lines
342-352): default `value`; a non-empty `order_by` equal to a group-by
field selects that field's positional alias; anything else is ignored. -/
def computeOrderBy (orderBy : String) (groupBy : List String) (aliases : List String) : String :=
  if orderBy = "" then "value"
  else
    match (groupBy.zip aliases).find? (fun p => p.1 = orderBy) with
    | some p => p.2
    | none => "value"

/-- The LIMIT selection of `QueryAnalytics`: default 100, cap 10000. -/
def analyticsLimit (l : Int) : Int :=
  let l1 := if l ≤ 0 then 100 else l
  if l1 > 10000 then 10000 else l1

/-- Everything of the `QueryAnalytics` statement before ORDER BY. -/
def analyticsBaseSQL (q : AnalyticsQuery) :
    Except String (String × List String × List SqlArg) := do
  let aggExpr ← buildAggregationExpr q.aggregation q.field
  let (groupByExprs, aliases) ←
    if q.groupBy.length > 0 then buildGroupByExprs q.groupBy else pure ([], [])
  let selectParts := (aggExpr ++ " AS value") :: groupByExprs
  let (whereParts, args) ← analyticsWhereParts q.fromT q.toT q.filters
  let sql := "SELECT " ++ String.intercalate ", " selectParts ++ " FROM " ++ eventsTable
  let sql := if whereParts.length > 0
    then sql ++ " WHERE " ++ String.intercalate " AND " whereParts else sql
  let sql := if aliases.length > 0
    then sql ++ " GROUP BY " ++ String.intercalate ", " aliases else sql
  .ok (sql, aliases, args)

/-- The complete `QueryAnalytics` statement. -/
def buildAnalyticsSQL (q : AnalyticsQuery) : Except String (String × List SqlArg) := do
  let (base, aliases, args) ← analyticsBaseSQL q
  let orderBy := computeOrderBy q.orderBy q.groupBy aliases
  let orderDir := if q.orderDesc then "DESC" else "ASC"
  .ok (base ++ " ORDER BY " ++ orderBy ++ " " ++ orderDir ++
    " LIMIT " ++ toString (analyticsLimit q.limit), args)

/-! ## Query-string time parsing (routes/analytics.go, parseTimeRange)

`parseTimeRange` tries `time.Parse(time.RFC3339, s)` and falls back to
`strconv.ParseInt(s, 10, 64)` interpreted as Unix seconds; a string that
parses as neither leaves the zero time. The two library parsers are
embedded below: the RFC 3339 layout `2006-01-02T15:04:05Z07:00` with an
optional fraction of up to nine digits after a `.` or `,` separator
(the general parser's `commaOrPeriod` accepts either), field range
validation, and a `Z` or `±hh:mm` zone; and base-10 64-bit integer
parsing with an optional sign and the int64 range check. -/

def digitVal (c : Char) : Option Nat :=
  if '0' ≤ c ∧ c ≤ '9' then some (c.toNat - 48) else none

def parseNat2 : List Char → Option (Nat × List Char)
  | a :: b :: rest =>
    match digitVal a, digitVal b with
    | some x, some y => some (10 * x + y, rest)
    | _, _ => none
  | _ => none

def parseNat4 : List Char → Option (Nat × List Char)
  | a :: b :: c :: d :: rest =>
    match digitVal a, digitVal b, digitVal c, digitVal d with
    | some x, some y, some z, some w => some (1000 * x + 100 * y + 10 * z + w, rest)
    | _, _, _, _ => none
  | _ => none

/-- Fractional-second digits after the separator: scale the first nine
digits to nanoseconds and consume (but drop) any further digits. -/
def parseFracDigits : List Char → Nat → Nat → Option (Nat × List Char)
  | l, acc, scale =>
    match l with
    | c :: rest =>
      match digitVal c with
      | some v =>
        if scale = 0 then parseFracDigits rest acc 0
        else parseFracDigits rest (acc + v * 10 ^ (scale - 1)) (scale - 1)
      | none => some (acc, l)
    | [] => some (acc, [])

/-- Optional fraction introduced by `.` or `,` (Go's `commaOrPeriod`);
the fraction is consumed only when at least one digit follows the
separator, otherwise the input is left for the zone parser. -/
def parseFrac : List Char → Option (Nat × List Char)
  | '.' :: c :: rest =>
    match digitVal c with
    | some v => parseFracDigits rest (v * 10 ^ 8) 8
    | none => some (0, '.' :: c :: rest)
  | ',' :: c :: rest =>
    match digitVal c with
    | some v => parseFracDigits rest (v * 10 ^ 8) 8
    | none => some (0, ',' :: c :: rest)
  | l => some (0, l)

/-- Zone designator: `Z` or `±hh:mm`; yields the offset in seconds. -/
def parseZone : List Char → Option (Int × List Char)
  | 'Z' :: rest => some (0, rest)
  | '+' :: rest =>
    match parseNat2 rest with
    | some (hh, ':' :: rest2) =>
      match parseNat2 rest2 with
      | some (mm, rest3) =>
        if hh ≤ 23 ∧ mm ≤ 59 then some ((hh * 3600 + mm * 60 : Int), rest3) else none
      | none => none
    | _ => none
  | '-' :: rest =>
    match parseNat2 rest with
    | some (hh, ':' :: rest2) =>
      match parseNat2 rest2 with
      | some (mm, rest3) =>
        if hh ≤ 23 ∧ mm ≤ 59 then some (-(hh * 3600 + mm * 60 : Int), rest3) else none
      | none => none
    | _ => none
  | _ => none

def isLeapYear (y : Int) : Bool :=
  y % 4 = 0 && (y % 100 ≠ 0 || y % 400 = 0)

def daysInMonth (y m : Int) : Int :=
  if m = 2 then (if isLeapYear y then 29 else 28)
  else if m = 4 ∨ m = 6 ∨ m = 9 ∨ m = 11 then 30
  else 31

/-- `time.Parse(time.RFC3339, s)` on success: UTC nanoseconds. -/
def goParseRFC3339 (s : String) : Option Int :=
  match parseNat4 s.toList with
  | some (y, '-' :: r1) =>
    match parseNat2 r1 with
    | some (mo, '-' :: r2) =>
      match parseNat2 r2 with
      | some (dy, 'T' :: r3) =>
        match parseNat2 r3 with
        | some (hh, ':' :: r4) =>
          match parseNat2 r4 with
          | some (mi, ':' :: r5) =>
            match parseNat2 r5 with
            | some (se, r6) =>
              match parseFrac r6 with
              | some (ns, r7) =>
                match parseZone r7 with
                | some (off, []) =>
                  if 1 ≤ (mo : Int) ∧ (mo : Int) ≤ 12 ∧ 1 ≤ (dy : Int) ∧
                      (dy : Int) ≤ daysInMonth y mo ∧ hh ≤ 23 ∧ mi ≤ 59 ∧ se ≤ 59 then
                    some ((daysFromCivil y mo dy * 86400 +
                      (hh : Int) * 3600 + (mi : Int) * 60 + (se : Int) - off) * nsPerSec + ns)
                  else none
                | _ => none
              | none => none
            | none => none
          | _ => none
        | _ => none
      | _ => none
    | _ => none
  | _ => none

def digitsToNat : List Char → Nat → Option Nat
  | [], acc => some acc
  | c :: rest, acc =>
    match digitVal c with
    | some v => digitsToNat rest (10 * acc + v)
    | none => none

/-- `strconv.ParseInt(s, 10, 64)` on success. -/
def goParseInt (s : String) : Option Int :=
  let p : Int × List Char :=
    match s.toList with
    | '+' :: r => (1, r)
    | '-' :: r => (-1, r)
    | r => (1, r)
  match p.2 with
  | [] => none
  | l =>
    match digitsToNat l 0 with
    | none => none
    | some n =>
      let v := p.1 * (n : Int)
      if -(2 ^ 63) ≤ v ∧ v ≤ 2 ^ 63 - 1 then some v else none

/-- One bound of `parseTimeRange`: RFC 3339, else Unix seconds, else the
zero time. -/
def parseTimeOne (s : String) : Int :=
  if s = "" then goTimeZero
  else
    match goParseRFC3339 s with
    | some t => t
    | none =>
      match goParseInt s with
      | some unix => unix * nsPerSec
      | none => goTimeZero

/-- `parseTimeRange(from, to)`. -/
def parseTimeRange (fromS toS : String) : Int × Int :=
  (parseTimeOne fromS, parseTimeOne toS)

/-! ## Claims -/

/-- C2: `Queue.Enqueue` never blocks (it is a total function of the
state); below capacity it appends the event, bumps `enqueued` and
returns true; when full it drops the incoming event, bumps `dropped` and
returns false; so each call bumps exactly one counter, both counters are
non-decreasing, and the pending count never exceeds the capacity. The
counter hypotheses say the 64-bit counters have not saturated, which
holds in every reachable state (each call adds at most 1 starting from
0). -/
theorem c2_queue_enqueue (q : Queue) (e : Event)
    (hcap : q.events.length ≤ q.capacity)
    (henq0 : 0 ≤ q.enqueued) (henq1 : q.enqueued < 2 ^ 63 - 1)
    (hdrop0 : 0 ≤ q.dropped) (hdrop1 : q.dropped < 2 ^ 63 - 1) :
    ((q.Enqueue e).2 = true ↔ q.events.length < q.capacity) ∧
    ((q.Enqueue e).2 = true →
      (q.Enqueue e).1.events = q.events ++ [e] ∧
      (q.Enqueue e).1.enqueued = q.enqueued + 1 ∧
      (q.Enqueue e).1.dropped = q.dropped) ∧
    ((q.Enqueue e).2 = false →
      (q.Enqueue e).1.events = q.events ∧
      (q.Enqueue e).1.dropped = q.dropped + 1 ∧
      (q.Enqueue e).1.enqueued = q.enqueued) ∧
    q.enqueued ≤ (q.Enqueue e).1.enqueued ∧
    q.dropped ≤ (q.Enqueue e).1.dropped ∧
    (q.Enqueue e).1.events.length ≤ q.capacity := by
  simp only [Queue.Enqueue]
  by_cases hc : q.events.length < q.capacity
  · rw [if_pos hc]
    refine ⟨?_, ?_, ?_, ?_, ?_, ?_⟩
    · simp [hc]
    · intro
      refine ⟨rfl, ?_, rfl⟩
      show wrap64 (q.enqueued + 1) = q.enqueued + 1
      simp only [wrap64]
      omega
    · intro h
      simp at h
    · show q.enqueued ≤ wrap64 (q.enqueued + 1)
      simp only [wrap64]
      omega
    · show q.dropped ≤ q.dropped
      exact le_refl _
    · show (q.events ++ [e]).length ≤ q.capacity
      simp only [List.length_append, List.length_singleton]
      omega
  · rw [if_neg hc]
    refine ⟨?_, ?_, ?_, ?_, ?_, ?_⟩
    · simp [hc]
    · intro h
      simp at h
    · intro
      refine ⟨rfl, ?_, rfl⟩
      show wrap64 (q.dropped + 1) = q.dropped + 1
      simp only [wrap64]
      omega
    · show q.enqueued ≤ q.enqueued
      exact le_refl _
    · show q.dropped ≤ wrap64 (q.dropped + 1)
      simp only [wrap64]
      omega
    · exact hcap

/-- C2 witness: a queue of capacity 2 holding one event accepts the next
event and bumps `enqueued` from 5 to 6. -/
theorem c2_queue_enqueue_witness :
    ((1 : Nat) ≤ 2 ∧ (0 : Int) ≤ 5 ∧ (5 : Int) < 2 ^ 63 - 1 ∧
      (0 : Int) ≤ 3 ∧ (3 : Int) < 2 ^ 63 - 1) ∧
    ((Queue.Enqueue ⟨2, [⟨"a"⟩], 5, 3⟩ ⟨"b"⟩).2 = true →
      (Queue.Enqueue ⟨2, [⟨"a"⟩], 5, 3⟩ ⟨"b"⟩).1.events = [⟨"a"⟩] ++ [⟨"b"⟩] ∧
      (Queue.Enqueue ⟨2, [⟨"a"⟩], 5, 3⟩ ⟨"b"⟩).1.enqueued = 5 + 1 ∧
      (Queue.Enqueue ⟨2, [⟨"a"⟩], 5, 3⟩ ⟨"b"⟩).1.dropped = 3) :=
  ⟨⟨by decide, by decide, by decide, by decide, by decide⟩,
    (c2_queue_enqueue ⟨2, [⟨"a"⟩], 5, 3⟩ ⟨"b"⟩ (by decide) (by decide) (by decide)
      (by decide) (by decide)).2.1⟩

/-- C6: after any flush the batch buffer has length zero, and the result
is the same whether the underlying `WriteBatch` fails or succeeds: the
error is consumed (logged) inside `flush`, whose return type carries no
error to the caller. -/
theorem c6_flush_resets_batch (b : Batcher) (writeBatch : List Event → Except String Unit) :
    (b.flush writeBatch).batch = [] ∧
    b.flush writeBatch = b.flush (fun _ => Except.ok ()) := by
  simp only [Batcher.flush]
  by_cases h0 : b.batch.length = 0
  · simp only [if_pos h0]
    exact ⟨List.length_eq_zero.mp h0, trivial⟩
  · simp only [if_neg h0]
    constructor
    · cases writeBatch b.batch <;> rfl
    · cases writeBatch b.batch <;> rfl

/-- C5: when the caller supplies no compare window, `QueryCompare`
derives `compare_to = from` and `compare_from = from − (to − from)`, a
previous window of exactly the current window's length; and the result
always satisfies `change = current − previous` with
`change_percent = (change / previous) × 100` when the previous value is
non-zero and 0 otherwise. -/
theorem c5_compare_derivation (gauge : GaugeQuery → Rat) (q : CompareQuery)
    (h1 : q.compareFrom = goTimeZero) :
    (QueryCompare gauge q).current =
      gauge ⟨q.aggregation, q.field, q.filters, q.fromT, q.toT⟩ ∧
    (QueryCompare gauge q).previous =
      gauge ⟨q.aggregation, q.field, q.filters, q.fromT - (q.toT - q.fromT), q.fromT⟩ ∧
    q.fromT - (q.fromT - (q.toT - q.fromT)) = q.toT - q.fromT ∧
    (QueryCompare gauge q).change =
      (QueryCompare gauge q).current - (QueryCompare gauge q).previous ∧
    ((QueryCompare gauge q).previous ≠ 0 →
      (QueryCompare gauge q).changePercent =
        ((QueryCompare gauge q).change / (QueryCompare gauge q).previous) * 100) ∧
    ((QueryCompare gauge q).previous = 0 → (QueryCompare gauge q).changePercent = 0) := by
  simp only [QueryCompare, if_pos (Or.inl h1)]
  refine ⟨trivial, trivial, by ring, trivial, ?_, ?_⟩
  · intro hne
    simp only [if_pos hne]
  · intro heq
    rw [if_neg (by simp [heq])]

/-- C5 witness: a concrete compare query with absent compare bounds and
a constant store value 5 for both windows. -/
theorem c5_compare_derivation_witness :
    (goTimeZero = goTimeZero) ∧
    (QueryCompare (fun _ : GaugeQuery => (5 : Rat))
        ⟨AggregationType.count, "", [], 0, 100, goTimeZero, goTimeZero⟩).previous =
      (fun _ : GaugeQuery => (5 : Rat))
        ⟨AggregationType.count, "", [], 0 - (100 - 0), 0⟩ ∧
    (QueryCompare (fun _ : GaugeQuery => (5 : Rat))
        ⟨AggregationType.count, "", [], 0, 100, goTimeZero, goTimeZero⟩).change =
      (QueryCompare (fun _ : GaugeQuery => (5 : Rat))
        ⟨AggregationType.count, "", [], 0, 100, goTimeZero, goTimeZero⟩).current -
      (QueryCompare (fun _ : GaugeQuery => (5 : Rat))
        ⟨AggregationType.count, "", [], 0, 100, goTimeZero, goTimeZero⟩).previous :=
  ⟨rfl,
    (c5_compare_derivation (fun _ : GaugeQuery => (5 : Rat))
      ⟨AggregationType.count, "", [], 0, 100, goTimeZero, goTimeZero⟩ rfl).2.1,
    (c5_compare_derivation (fun _ : GaugeQuery => (5 : Rat))
      ⟨AggregationType.count, "", [], 0, 100, goTimeZero, goTimeZero⟩ rfl).2.2.2.1⟩

/-! ## Helper lemmas for the identifier-safety and filter-table claims -/

theorem buildFieldExpr_bad (field : String) (hs : startsWithData field = true)
    (hbad : safeIdentifierRegex (trimData field) = false) :
    buildFieldExpr field = .error ("invalid data field name: " ++ trimData field) := by
  rw [buildFieldExpr, hs, hbad]
  simp

theorem buildNumericFieldExpr_bad (field : String) (hs : startsWithData field = true)
    (hbad : safeIdentifierRegex (trimData field) = false) :
    buildNumericFieldExpr field = .error ("invalid data field name: " ++ trimData field) := by
  rw [buildNumericFieldExpr, hs, hbad]
  simp

theorem filterFieldExpr_bad (f : QueryFilter) (hs : startsWithData f.field = true)
    (hbad : safeIdentifierRegex (trimData f.field) = false) :
    filterFieldExpr f = .error ("invalid data field name: " ++ trimData f.field) := by
  rw [filterFieldExpr, hs, hbad]
  simp

theorem buildSingleFilter_bad (f : QueryFilter) (hs : startsWithData f.field = true)
    (hbad : safeIdentifierRegex (trimData f.field) = false) :
    buildSingleFilter f = .error ("invalid data field name: " ++ trimData f.field) := by
  rw [buildSingleFilter, filterFieldExpr_bad f hs hbad]
  rfl

theorem groupByFieldExpr_bad (i : Nat) (g : String) (hs : startsWithData g = true)
    (hbad : safeIdentifierRegex (trimData g) = false) :
    groupByFieldExpr i g = .error ("invalid data field name: " ++ trimData g) := by
  rw [groupByFieldExpr, hs, hbad]
  simp

theorem buildGroupByExprsAux_bad (field : String) (hs : startsWithData field = true)
    (hbad : safeIdentifierRegex (trimData field) = false) :
    ∀ gs i, field ∈ gs → ∀ r, buildGroupByExprsAux i gs ≠ .ok r := by
  intro gs
  induction gs with
  | nil => intro i h; simp at h
  | cons g rest ih =>
    intro i hmem r
    rcases List.mem_cons.mp hmem with heq | htail
    · subst heq
      rw [buildGroupByExprsAux, groupByFieldExpr_bad i field hs hbad]
      intro hok
      simp [Bind.bind, Except.bind] at hok
    · rw [buildGroupByExprsAux]
      cases hg : groupByFieldExpr i g with
      | error e => intro hok; simp [hg, Bind.bind, Except.bind] at hok
      | ok e =>
        intro hok
        simp only [hg, Bind.bind, Except.bind] at hok
        cases hrec : buildGroupByExprsAux (i + 1) rest with
        | error e2 => rw [hrec] at hok; cases hok
        | ok r2 => exact ih (i + 1) htail r2 hrec

theorem buildFieldExpr_ok_shape (field e : String) (hok : buildFieldExpr field = .ok e) :
    (validGroupByColumns.contains e = true ∧ e = field) ∨
    (safeIdentifierRegex (trimData field) = true ∧ startsWithData field = true ∧
      e = jsonExtractString (trimData field)) := by
  rw [buildFieldExpr] at hok
  by_cases h1 : startsWithData field = true
  · rw [if_pos h1] at hok
    by_cases h2 : safeIdentifierRegex (trimData field) = true
    · rw [if_pos h2] at hok
      injection hok with h
      exact Or.inr ⟨h2, h1, h.symm⟩
    · rw [if_neg h2] at hok
      exact Except.noConfusion hok
  · rw [if_neg h1] at hok
    by_cases h2 : validGroupByColumns.contains field = true
    · rw [if_pos h2] at hok
      injection hok with h
      exact Or.inl ⟨h ▸ h2, h.symm⟩
    · rw [if_neg h2] at hok
      exact Except.noConfusion hok

theorem buildNumericFieldExpr_ok_shape (field e : String)
    (hok : buildNumericFieldExpr field = .ok e) :
    safeIdentifierRegex (trimData field) = true ∧ startsWithData field = true ∧
      e = jsonExtractFloat (trimData field) := by
  rw [buildNumericFieldExpr] at hok
  by_cases h1 : startsWithData field = true
  · rw [if_pos h1] at hok
    by_cases h2 : safeIdentifierRegex (trimData field) = true
    · rw [if_pos h2] at hok
      injection hok with h
      exact ⟨h2, h1, h.symm⟩
    · rw [if_neg h2] at hok
      exact Except.noConfusion hok
  · rw [if_neg h1] at hok
    exact Except.noConfusion hok

theorem filterFieldExpr_ok_shape (f : QueryFilter) (e : String)
    (hok : filterFieldExpr f = .ok e) :
    (validColumns.contains e = true ∧ e = f.field) ∨
    (safeIdentifierRegex (trimData f.field) = true ∧ startsWithData f.field = true ∧
      (e = jsonExtractString (trimData f.field) ∨ e = jsonExtractFloat (trimData f.field))) := by
  rw [filterFieldExpr] at hok
  by_cases h1 : startsWithData f.field = true
  · rw [if_pos h1] at hok
    by_cases h2 : safeIdentifierRegex (trimData f.field) = true
    · rw [if_pos h2] at hok
      by_cases h3 : f.operator = "lt" ∨ f.operator = "gt" ∨ f.operator = "lte" ∨ f.operator = "gte"
      · rw [if_pos h3] at hok
        injection hok with h
        exact Or.inr ⟨h2, h1, Or.inr h.symm⟩
      · rw [if_neg h3] at hok
        injection hok with h
        exact Or.inr ⟨h2, h1, Or.inl h.symm⟩
    · rw [if_neg h2] at hok
      exact Except.noConfusion hok
  · rw [if_neg h1] at hok
    by_cases h2 : validColumns.contains f.field = true
    · rw [if_pos h2] at hok
      injection hok with h
      exact Or.inl ⟨h ▸ h2, h.symm⟩
    · rw [if_neg h2] at hok
      exact Except.noConfusion hok

theorem groupByFieldExpr_ok_shape (i : Nat) (g e : String)
    (hok : groupByFieldExpr i g = .ok e) :
    (∃ gname, validGroupByColumns.contains gname = true ∧
      e = gname ++ " AS " ++ groupAlias i) ∨
    (∃ key, safeIdentifierRegex key = true ∧
      e = jsonExtractString key ++ " AS " ++ groupAlias i) := by
  rw [groupByFieldExpr] at hok
  by_cases h1 : startsWithData g = true
  · rw [if_pos h1] at hok
    by_cases h2 : safeIdentifierRegex (trimData g) = true
    · rw [if_pos h2] at hok
      injection hok with h
      exact Or.inr ⟨trimData g, h2, h.symm⟩
    · rw [if_neg h2] at hok
      exact Except.noConfusion hok
  · rw [if_neg h1] at hok
    by_cases h2 : validGroupByColumns.contains g = true
    · rw [if_pos h2] at hok
      injection hok with h
      exact Or.inl ⟨g, h2, h.symm⟩
    · rw [if_neg h2] at hok
      exact Except.noConfusion hok

theorem buildGroupByExprsAux_ok_shape :
    ∀ gs i es als, buildGroupByExprsAux i gs = .ok (es, als) →
      ∀ e ∈ es,
        ∃ j, (∃ gname, validGroupByColumns.contains gname = true ∧
            e = gname ++ " AS " ++ groupAlias j) ∨
          (∃ key, safeIdentifierRegex key = true ∧
            e = jsonExtractString key ++ " AS " ++ groupAlias j) := by
  intro gs
  induction gs with
  | nil =>
    intro i es als hok e he
    rw [buildGroupByExprsAux] at hok
    injection hok with h
    injection h with h1 h2
    rw [← h1] at he
    simp at he
  | cons g rest ih =>
    intro i es als hok e he
    rw [buildGroupByExprsAux] at hok
    cases hg : groupByFieldExpr i g with
    | error e2 => rw [hg] at hok; simp [Bind.bind, Except.bind] at hok
    | ok e1 =>
      rw [hg] at hok
      simp only [Bind.bind, Except.bind] at hok
      cases hrec : buildGroupByExprsAux (i + 1) rest with
      | error e2 => rw [hrec] at hok; cases hok
      | ok r2 =>
        rw [hrec] at hok
        injection hok with h
        injection h with h1 h2
        rw [← h1] at he
        rcases List.mem_cons.mp he with heq | htail
        · subst heq
          exact ⟨i, groupByFieldExpr_ok_shape i g e hg⟩
        · exact ih (i + 1) r2.1 r2.2 (by rw [hrec]) e htail

theorem operatorClause_ok_shape (op fe : String) (v : GoValue)
    (sql : String) (args : List SqlArg)
    (hok : operatorClause op fe v = .ok (sql, args)) :
    ∃ suffix, sql = fe ++ suffix ∧
      (suffix ∈ [" = ?", " != ?", " < ?", " > ?", " <= ?", " >= ?", " LIKE ?"] ∨
        ∃ vs, v = GoValue.list vs ∧
          suffix = " IN (" ++ String.intercalate ", " (vs.map (fun _ => "?")) ++ ")") := by
  rw [operatorClause.eq_def] at hok
  by_cases h0 : op = "eq" ∨ op = ""
  · rw [if_pos h0] at hok
    injection hok with h
    injection h with ha hb
    exact ⟨" = ?", ha.symm, Or.inl (by simp)⟩
  · rw [if_neg h0] at hok
    by_cases h1 : op = "neq"
    · rw [if_pos h1] at hok
      injection hok with h
      injection h with ha hb
      exact ⟨" != ?", ha.symm, Or.inl (by simp)⟩
    · rw [if_neg h1] at hok
      by_cases h2 : op = "lt"
      · rw [if_pos h2] at hok
        injection hok with h
        injection h with ha hb
        exact ⟨" < ?", ha.symm, Or.inl (by simp)⟩
      · rw [if_neg h2] at hok
        by_cases h3 : op = "gt"
        · rw [if_pos h3] at hok
          injection hok with h
          injection h with ha hb
          exact ⟨" > ?", ha.symm, Or.inl (by simp)⟩
        · rw [if_neg h3] at hok
          by_cases h4 : op = "lte"
          · rw [if_pos h4] at hok
            injection hok with h
            injection h with ha hb
            exact ⟨" <= ?", ha.symm, Or.inl (by simp)⟩
          · rw [if_neg h4] at hok
            by_cases h5 : op = "gte"
            · rw [if_pos h5] at hok
              injection hok with h
              injection h with ha hb
              exact ⟨" >= ?", ha.symm, Or.inl (by simp)⟩
            · rw [if_neg h5] at hok
              by_cases h6 : op = "contains"
              · rw [if_pos h6] at hok
                injection hok with h
                injection h with ha hb
                exact ⟨" LIKE ?", ha.symm, Or.inl (by simp)⟩
              · rw [if_neg h6] at hok
                by_cases h7 : op = "startswith"
                · rw [if_pos h7] at hok
                  injection hok with h
                  injection h with ha hb
                  exact ⟨" LIKE ?", ha.symm, Or.inl (by simp)⟩
                · rw [if_neg h7] at hok
                  by_cases h8 : op = "endswith"
                  · rw [if_pos h8] at hok
                    injection hok with h
                    injection h with ha hb
                    exact ⟨" LIKE ?", ha.symm, Or.inl (by simp)⟩
                  · rw [if_neg h8] at hok
                    by_cases h9 : op = "in"
                    · rw [if_pos h9] at hok
                      cases hv : v with
                      | str s =>
                        rw [hv] at hok
                        exact Except.noConfusion hok
                      | list vs =>
                        rw [hv] at hok
                        injection hok with h
                        injection h with ha hb
                        refine ⟨" IN (" ++ String.intercalate ", " (vs.map (fun _ => "?")) ++ ")",
                          ?_, Or.inr ⟨vs, rfl, rfl⟩⟩
                        rw [← ha]
                        simp [String.append_assoc]
                    · rw [if_neg h9] at hok
                      exact Except.noConfusion hok

theorem buildSingleFilter_ok_shape (f : QueryFilter) (sql : String) (args : List SqlArg)
    (hok : buildSingleFilter f = .ok (sql, args)) :
    ∃ fe suffix, filterFieldExpr f = .ok fe ∧ sql = fe ++ suffix ∧
      (suffix ∈ [" = ?", " != ?", " < ?", " > ?", " <= ?", " >= ?", " LIKE ?"] ∨
        ∃ vs, f.value = GoValue.list vs ∧
          suffix = " IN (" ++ String.intercalate ", " (vs.map (fun _ => "?")) ++ ")") := by
  cases hfe : filterFieldExpr f with
  | error e =>
    rw [buildSingleFilter, hfe] at hok
    simp only [Bind.bind, Except.bind] at hok
    exact Except.noConfusion hok
  | ok fe =>
    rw [buildSingleFilter, hfe] at hok
    simp only [Bind.bind, Except.bind] at hok
    obtain ⟨suffix, hs, hcase⟩ := operatorClause_ok_shape f.operator fe f.value sql args hok
    exact ⟨fe, suffix, rfl, hs, hcase⟩


/-- C1: any `data.<tail>` whose tail fails `^[A-Za-z_][A-Za-z0-9_]*$` is
rejected with an invalid-field error by every consumer (aggregation
field expressions, numeric field expressions, filters, group-by), and no
SQL is produced; every successful field expression is either a column
from the fixed allowlists, emitted verbatim, or a JSON extraction whose
key passed the identifier check, so the only non-parameter text in a
translated filter is the gated field expression plus a fixed operator
suffix. -/
theorem c1_identifier_safety :
    (∀ field : String, startsWithData field = true →
      safeIdentifierRegex (trimData field) = false →
      buildFieldExpr field = .error ("invalid data field name: " ++ trimData field) ∧
      buildNumericFieldExpr field = .error ("invalid data field name: " ++ trimData field) ∧
      (∀ op v, buildSingleFilter ⟨field, op, v⟩ =
        .error ("invalid data field name: " ++ trimData field)) ∧
      (∀ gs i r, field ∈ gs → buildGroupByExprsAux i gs ≠ .ok r)) ∧
    (∀ field e, buildFieldExpr field = .ok e →
      (validGroupByColumns.contains e = true ∧ e = field) ∨
      (safeIdentifierRegex (trimData field) = true ∧ startsWithData field = true ∧
        e = jsonExtractString (trimData field))) ∧
    (∀ field e, buildNumericFieldExpr field = .ok e →
      safeIdentifierRegex (trimData field) = true ∧ startsWithData field = true ∧
        e = jsonExtractFloat (trimData field)) ∧
    (∀ f e, filterFieldExpr f = .ok e →
      (validColumns.contains e = true ∧ e = f.field) ∨
      (safeIdentifierRegex (trimData f.field) = true ∧ startsWithData f.field = true ∧
        (e = jsonExtractString (trimData f.field) ∨ e = jsonExtractFloat (trimData f.field)))) ∧
    (∀ f sql args, buildSingleFilter f = .ok (sql, args) →
      ∃ fe suffix, filterFieldExpr f = .ok fe ∧ sql = fe ++ suffix ∧
        (suffix ∈ [" = ?", " != ?", " < ?", " > ?", " <= ?", " >= ?", " LIKE ?"] ∨
          ∃ vs, f.value = GoValue.list vs ∧
            suffix = " IN (" ++ String.intercalate ", " (vs.map (fun _ => "?")) ++ ")")) ∧
    (∀ gs i es als, buildGroupByExprsAux i gs = .ok (es, als) →
      ∀ e ∈ es,
        ∃ j, (∃ gname, validGroupByColumns.contains gname = true ∧
            e = gname ++ " AS " ++ groupAlias j) ∨
          (∃ key, safeIdentifierRegex key = true ∧
            e = jsonExtractString key ++ " AS " ++ groupAlias j)) :=
  ⟨fun field hs hbad =>
    ⟨buildFieldExpr_bad field hs hbad, buildNumericFieldExpr_bad field hs hbad,
      fun op v => buildSingleFilter_bad ⟨field, op, v⟩ hs hbad,
      fun gs i r hmem => buildGroupByExprsAux_bad field hs hbad gs i hmem r⟩,
    buildFieldExpr_ok_shape,
    buildNumericFieldExpr_ok_shape,
    filterFieldExpr_ok_shape,
    buildSingleFilter_ok_shape,
    fun gs i es als h e he => buildGroupByExprsAux_ok_shape gs i es als h e he⟩

/-- C1 witness: `data.bad-key` fails the identifier gate and is rejected
with the invalid-field error. -/
theorem c1_identifier_safety_witness :
    (startsWithData "data.bad-key" = true ∧
      safeIdentifierRegex (trimData "data.bad-key") = false) ∧
    buildFieldExpr "data.bad-key" =
      .error ("invalid data field name: " ++ trimData "data.bad-key") :=
  ⟨⟨by decide, by decide⟩,
    (c1_identifier_safety.1 "data.bad-key" (by decide) (by decide)).1⟩

/-- C7: the filter translation follows the fixed operator table — `eq`
or the empty operator give `= ?`, `neq` gives `!= ?`, the four
comparisons give their symbols, `contains`/`startswith`/`endswith` give
`LIKE ?` with the value wrapped in the corresponding `%` pattern, `in`
gives one placeholder per list element and rejects a non-list value, any
other operator is an error before SQL is emitted, and multiple filters
are joined with ` AND `. -/
theorem c7_filter_operator_table :
    (∀ f fe, filterFieldExpr f = .ok fe →
      buildSingleFilter f = operatorClause f.operator fe f.value) ∧
    (∀ fe v, operatorClause "eq" fe v = .ok (fe ++ " = ?", [.gv v]) ∧
      operatorClause "" fe v = .ok (fe ++ " = ?", [.gv v])) ∧
    (∀ fe v, operatorClause "neq" fe v = .ok (fe ++ " != ?", [.gv v])) ∧
    (∀ fe v, operatorClause "lt" fe v = .ok (fe ++ " < ?", [.gv v])) ∧
    (∀ fe v, operatorClause "gt" fe v = .ok (fe ++ " > ?", [.gv v])) ∧
    (∀ fe v, operatorClause "lte" fe v = .ok (fe ++ " <= ?", [.gv v])) ∧
    (∀ fe v, operatorClause "gte" fe v = .ok (fe ++ " >= ?", [.gv v])) ∧
    (∀ fe v, operatorClause "contains" fe v =
      .ok (fe ++ " LIKE ?", [.gv (.str ("%" ++ goFormatVal v ++ "%"))])) ∧
    (∀ fe v, operatorClause "startswith" fe v =
      .ok (fe ++ " LIKE ?", [.gv (.str (goFormatVal v ++ "%"))])) ∧
    (∀ fe v, operatorClause "endswith" fe v =
      .ok (fe ++ " LIKE ?", [.gv (.str ("%" ++ goFormatVal v))])) ∧
    (∀ fe vs, operatorClause "in" fe (GoValue.list vs) =
      .ok (fe ++ " IN (" ++ String.intercalate ", " (vs.map (fun _ => "?")) ++ ")",
        vs.map (fun v => SqlArg.gv (.str v)))) ∧
    (∀ fe s, operatorClause "in" fe (GoValue.str s) =
      .error "in operator requires array value") ∧
    (∀ op fe v, op ∉ ["eq", "", "neq", "lt", "gt", "lte", "gte", "contains",
        "startswith", "endswith", "in"] →
      operatorClause op fe v = .error ("unsupported operator: " ++ op)) ∧
    (∀ f1 f2 c1 a1 c2 a2, buildSingleFilter f1 = .ok (c1, a1) →
      buildSingleFilter f2 = .ok (c2, a2) →
      buildFilterClause [f1, f2] = .ok (c1 ++ " AND " ++ c2, a1 ++ a2)) := by
  refine ⟨?_, ?_, ?_, ?_, ?_, ?_, ?_, ?_, ?_, ?_, ?_, ?_, ?_, ?_⟩
  · intro f fe hfe
    rw [buildSingleFilter, hfe]
    rfl
  · exact fun fe v => ⟨rfl, rfl⟩
  · exact fun fe v => rfl
  · exact fun fe v => rfl
  · exact fun fe v => rfl
  · exact fun fe v => rfl
  · exact fun fe v => rfl
  · exact fun fe v => rfl
  · exact fun fe v => rfl
  · exact fun fe v => rfl
  · exact fun fe vs => rfl
  · exact fun fe s => rfl
  · intro op fe v hno
    simp only [List.mem_cons, not_or, List.not_mem_nil] at hno
    rw [operatorClause.eq_def]
    rw [if_neg (by tauto), if_neg (by tauto), if_neg (by tauto), if_neg (by tauto),
      if_neg (by tauto), if_neg (by tauto), if_neg (by tauto), if_neg (by tauto),
      if_neg (by tauto), if_neg (by tauto)]
  · intro f1 f2 c1 a1 c2 a2 h1 h2
    rw [buildFilterClause]
    rw [if_neg (by simp)]
    rw [show buildFilterConditions [f1, f2] = .ok ([c1, c2], a1 ++ a2) from ?_]
    · simp only [Except.map]
      rw [show String.intercalate " AND " [c1, c2] = c1 ++ " AND " ++ c2 from by
        simp [String.intercalate, String.intercalate.go]]
    · rw [buildFilterConditions, h1]
      simp only [Bind.bind, Except.bind]
      rw [buildFilterConditions, h2]
      simp only [Bind.bind, Except.bind]
      rw [buildFilterConditions]
      simp only [Bind.bind, Except.bind]
      simp

/-- C7 witness: two concrete filters translate into the two table rows
joined with AND. -/
theorem c7_filter_operator_table_witness :
    buildSingleFilter ⟨"service", "eq", GoValue.str "users"⟩ =
      .ok ("service" ++ " = ?", [.gv (GoValue.str "users")]) ∧
    buildFilterClause [⟨"service", "eq", GoValue.str "users"⟩,
        ⟨"name", "neq", GoValue.str "x"⟩] =
      .ok (("service" ++ " = ?") ++ " AND " ++ ("name" ++ " != ?"),
        [SqlArg.gv (GoValue.str "users")] ++ [SqlArg.gv (GoValue.str "x")]) := by
  have hf1 : filterFieldExpr ⟨"service", "eq", GoValue.str "users"⟩ = .ok "service" := rfl
  have hf2 : filterFieldExpr ⟨"name", "neq", GoValue.str "x"⟩ = .ok "name" := rfl
  have h1 : buildSingleFilter ⟨"service", "eq", GoValue.str "users"⟩ =
      .ok ("service" ++ " = ?", [SqlArg.gv (GoValue.str "users")]) := by
    rw [c7_filter_operator_table.1 _ _ hf1]
    exact (c7_filter_operator_table.2.1 "service" (GoValue.str "users")).1
  have h2 : buildSingleFilter ⟨"name", "neq", GoValue.str "x"⟩ =
      .ok ("name" ++ " != ?", [SqlArg.gv (GoValue.str "x")]) := by
    rw [c7_filter_operator_table.1 _ _ hf2]
    exact c7_filter_operator_table.2.2.1 "name" (GoValue.str "x")
  exact ⟨h1, c7_filter_operator_table.2.2.2.2.2.2.2.2.2.2.2.2.2 _ _ _ _ _ _ h1 h2⟩

/-- Ceiling division, as the specification words the data-point bound
(`⌈duration / step⌉`); used only to compare the spec against the code. -/
def specCeilDiv (a b : Int) : Int := (a + b - 1) / b

/-- C3 counterexample: with `interval = minute` and
`to − from = 10000 minutes + 1ns`, the spec's ceiling count is
10001 > 10000, so the claim demands a too-many-data-points error — but
the guard accepts the query (the code truncates the division). -/
theorem c3_counterexample :
    specCeilDiv (10000 * nsPerMinute + 1 - 0) nsPerMinute > 10000 ∧
    (10000 * nsPerMinute + 1 - 0 : Int) ≤ MaxQueryDuration ∧
    timeSeriesGuard ⟨AggregationType.count, "", IntervalType.minute, [], [],
      0, 10000 * nsPerMinute + 1, false⟩ = .ok () := by
  refine ⟨by norm_num [specCeilDiv, nsPerMinute, nsPerSec], ?_, ?_⟩
  · norm_num [MaxQueryDuration, nsPerMinute, nsPerHour, nsPerSec]
  · rfl

/-- C3 (amended): with both bounds set and a non-negative span, the
guard errors with `time range too large` exactly when the span exceeds
90 days, and with `query would return too many data points` exactly when
the span is within 90 days but the truncated (floor) division of the
span by the interval's nominal step — minute, hour, 24 h, 7 days, 30
days — exceeds 10000; when the guard errors, `QueryTimeSeries` builds no
SQL. -/
theorem c3_time_series_guard (q : TimeSeriesQuery)
    (hfrom : q.fromT ≠ goTimeZero) (hto : q.toT ≠ goTimeZero)
    (hord : 0 ≤ q.toT - q.fromT) :
    (timeSeriesGuard q = .error "time range too large" ↔
      q.toT - q.fromT > MaxQueryDuration) ∧
    (timeSeriesGuard q = .error "query would return too many data points" ↔
      q.toT - q.fromT ≤ MaxQueryDuration ∧
        (q.toT - q.fromT) / guardStep q.interval > 10000) ∧
    (guardStep IntervalType.minute = nsPerMinute ∧ guardStep IntervalType.hour = nsPerHour ∧
      guardStep IntervalType.day = 24 * nsPerHour ∧
      guardStep IntervalType.week = 7 * 24 * nsPerHour ∧
      guardStep IntervalType.month = 30 * 24 * nsPerHour) ∧
    (∀ e, timeSeriesGuard q = .error e → ∀ r, buildTimeSeriesSQL q ≠ .ok r) := by
  have hstep : 0 ≤ guardStep q.interval := by
    cases q.interval <;> norm_num [guardStep, nsPerMinute, nsPerHour, nsPerSec]
  have htdiv : Int.tdiv (q.toT - q.fromT) (guardStep q.interval) =
      (q.toT - q.fromT) / guardStep q.interval :=
    Int.tdiv_eq_ediv hord hstep
  rw [timeSeriesGuard, if_pos ⟨hfrom, hto⟩, htdiv]
  refine ⟨?_, ?_, ⟨rfl, rfl, rfl, rfl, rfl⟩, ?_⟩
  · by_cases h1 : q.toT - q.fromT > MaxQueryDuration
    · rw [if_pos h1]
      simp [h1]
    · rw [if_neg h1]
      by_cases h2 : (q.toT - q.fromT) / guardStep q.interval > MaxTimeSeriesPoints
      · rw [if_pos h2]
        simp only [iff_false, h1]
        intro hc
        injection hc with hs
        exact absurd hs (by decide)
      · rw [if_neg h2]
        simp [h1]
  · by_cases h1 : q.toT - q.fromT > MaxQueryDuration
    · rw [if_pos h1]
      constructor
      · intro hc
        injection hc with hs
        exact absurd hs (by decide)
      · intro ⟨ha, _⟩
        omega
    · rw [if_neg h1]
      by_cases h2 : (q.toT - q.fromT) / guardStep q.interval > MaxTimeSeriesPoints
      · rw [if_pos h2]
        simp only [MaxTimeSeriesPoints] at h2
        simp [h2]
        omega
      · rw [if_neg h2]
        simp only [MaxTimeSeriesPoints] at h2
        constructor
        · intro hc
          exact Except.noConfusion hc
        · intro ⟨_, hb⟩
          omega
  · intro e he r
    by_cases h1 : q.toT - q.fromT > MaxQueryDuration
    · rw [buildTimeSeriesSQL, timeSeriesGuard, if_pos ⟨hfrom, hto⟩, if_pos h1]
      intro hok
      simp [Bind.bind, Except.bind, Seq.seq, Functor.map] at hok
    · rw [if_neg h1] at he
      by_cases h2 : (q.toT - q.fromT) / guardStep q.interval > MaxTimeSeriesPoints
      · rw [buildTimeSeriesSQL, timeSeriesGuard, if_pos ⟨hfrom, hto⟩, if_neg h1, htdiv,
          if_pos h2]
        intro hok
        simp [Bind.bind, Except.bind, Seq.seq, Functor.map] at hok
      · rw [if_neg h2] at he
        exact Except.noConfusion he

/-- C3 witness: a 10001-minute span at minute resolution is within 90
days but floor-exceeds the point budget and is rejected. -/
theorem c3_time_series_guard_witness :
    ((0 : Int) ≠ goTimeZero ∧ (10001 * nsPerMinute : Int) ≠ goTimeZero ∧
      (0 : Int) ≤ 10001 * nsPerMinute - 0) ∧
    timeSeriesGuard ⟨AggregationType.count, "", IntervalType.minute, [], [],
      0, 10001 * nsPerMinute, false⟩ = .error "query would return too many data points" :=
  ⟨⟨by decide, by decide, by decide⟩,
    ((c3_time_series_guard ⟨AggregationType.count, "", IntervalType.minute, [], [],
        0, 10001 * nsPerMinute, false⟩ (by decide) (by decide) (by decide)).2.1).mpr
      ⟨by decide, by decide⟩⟩

theorem truncateTime_week_eq (t : Int) :
    truncateTime t IntervalType.week =
      nsPerDay * (dayIndex t - (goWeekday t + 6) % 7) := by
  obtain ⟨hrt, hm1, hm2, _, _⟩ := daysFromCivilRaw_civilFromDays (dayIndex t)
  simp only [truncateTime, timeDate]
  rw [daysFromCivil_eq_raw _ _ _ hm1 hm2]
  rw [show (civilFromDays (dayIndex t)).2.2 -
      ((if goWeekday t = 0 then 7 else goWeekday t) - 1) =
      (civilFromDays (dayIndex t)).2.2 +
      (1 - (if goWeekday t = 0 then 7 else goWeekday t)) from by ring]
  rw [daysFromCivilRaw_linear, hrt]
  congr 1
  have hw : 0 ≤ goWeekday t ∧ goWeekday t < 7 := by
    simp only [goWeekday]
    omega
  by_cases h0 : goWeekday t = 0
  · rw [if_pos h0, h0]
    omega
  · rw [if_neg h0]
    omega

/-- C8: week truncation maps an instant to the midnight of the Monday on
or before it — the result is a day boundary with weekday Monday, at most
the instant, and less than seven days before it (so a Sunday goes six
days back, as day 7 of the preceding week) — and advancing a week bucket
adds exactly seven days. -/
theorem c8_week_truncation (t : Int) :
    (∃ z, truncateTime t IntervalType.week = nsPerDay * z) ∧
    goWeekday (truncateTime t IntervalType.week) = 1 ∧
    truncateTime t IntervalType.week ≤ t ∧
    t - truncateTime t IntervalType.week < nsPerWeek ∧
    advanceTime t IntervalType.week = t + 7 * nsPerDay := by
  have heq := truncateTime_week_eq t
  have hd := dayIndex_decomp t
  refine ⟨⟨dayIndex t - (goWeekday t + 6) % 7, heq⟩, ?_, ?_, ?_, ?_⟩
  · rw [heq]
    simp only [goWeekday, dayIndex, nsPerDay, nsPerSec] at *
    omega
  · rw [heq]
    simp only [goWeekday, dayIndex, nsPerDay, nsPerSec, timeOfDay] at *
    omega
  · rw [heq]
    simp only [goWeekday, dayIndex, nsPerDay, nsPerSec, nsPerWeek, timeOfDay] at *
    omega
  · simp only [advanceTime]
    rw [addDate_days]

theorem buildGroupByExprsAux_aliases (gs : List String) : ∀ (i : Nat) (es als : List String),
    buildGroupByExprsAux i gs = Except.ok (es, als) →
    ∀ a ∈ als, ∃ j, j < gs.length ∧ a = groupAlias (i + j) := by
  induction gs with
  | nil =>
    intro i es als h a ha
    simp only [buildGroupByExprsAux, Except.ok.injEq, Prod.mk.injEq] at h
    obtain ⟨-, h1⟩ := h
    rw [← h1] at ha
    simp at ha
  | cons g gs ih =>
    intro i es als h a ha
    simp only [buildGroupByExprsAux, Bind.bind, Except.bind] at h
    cases h1 : groupByFieldExpr i g with
    | error e => rw [h1] at h; exact absurd h (by simp)
    | ok e =>
      rw [h1] at h
      cases h2 : buildGroupByExprsAux (i + 1) gs with
      | error e2 => rw [h2] at h; exact absurd h (by simp)
      | ok p =>
        obtain ⟨es2, als2⟩ := p
        rw [h2] at h
        injection h with h3
        injection h3 with h4 h5
        rw [← h5] at ha
        rcases List.mem_cons.mp ha with h6 | h6
        · exact ⟨0, by simp, by rw [Nat.add_zero]; exact h6⟩
        · obtain ⟨j, hj, hja⟩ := ih (i + 1) es2 als2 h2 a h6
          refine ⟨j + 1, by simp; omega, ?_⟩
          rw [show i + (j + 1) = i + 1 + j from by omega]
          exact hja

theorem analyticsBaseSQL_aliases (q : AnalyticsQuery) (base : String)
    (aliases : List String) (args : List SqlArg)
    (h : analyticsBaseSQL q = Except.ok (base, aliases, args)) :
    ∀ a ∈ aliases, ∃ i, i < q.groupBy.length ∧ a = groupAlias i := by
  simp only [analyticsBaseSQL, Bind.bind, Except.bind] at h
  cases h1 : buildAggregationExpr q.aggregation q.field with
  | error e => rw [h1] at h; exact absurd h (by simp)
  | ok agg =>
    rw [h1] at h
    dsimp only at h
    by_cases hg : q.groupBy.length > 0
    · rw [if_pos hg] at h
      simp only [buildGroupByExprs] at h
      by_cases h10 : q.groupBy.length > 10
      · rw [if_pos h10] at h; exact absurd h (by simp)
      · rw [if_neg h10] at h
        cases h2 : buildGroupByExprsAux 0 q.groupBy with
        | error e => rw [h2] at h; exact absurd h (by simp)
        | ok p =>
          obtain ⟨es, als⟩ := p
          rw [h2] at h
          dsimp only at h
          cases h3 : analyticsWhereParts q.fromT q.toT q.filters with
          | error e => rw [h3] at h; exact absurd h (by simp)
          | ok w =>
            obtain ⟨wp, wa⟩ := w
            rw [h3] at h
            simp only [Except.ok.injEq, Prod.mk.injEq] at h
            obtain ⟨-, h5, -⟩ := h
            intro a ha
            rw [← h5] at ha
            obtain ⟨j, hj, hja⟩ := buildGroupByExprsAux_aliases q.groupBy 0 es als h2 a ha
            exact ⟨j, hj, by rw [hja]; simp⟩
    · rw [if_neg hg] at h
      dsimp only [Pure.pure, Except.pure] at h
      cases h3 : analyticsWhereParts q.fromT q.toT q.filters with
      | error e => rw [h3] at h; exact absurd h (by simp [Pure.pure, Except.pure])
      | ok w =>
        obtain ⟨wp, wa⟩ := w
        rw [h3] at h
        simp only [Pure.pure, Except.pure, Except.ok.injEq, Prod.mk.injEq] at h
        obtain ⟨-, h5, -⟩ := h
        intro a ha
        rw [← h5] at ha
        simp at ha

/-- C9: an `order_by` that names no group-by field never causes an error
— `buildAnalyticsSQL` fails for exactly the same inputs whatever
`order_by` holds — and the statement silently orders by the aggregate
alias `value`; in general the ORDER BY identifier is always `value` or a
positional alias `group_i`, never the caller's text. -/
theorem c9_order_by_fallback (q : AnalyticsQuery)
    (hne : q.orderBy ≠ "") (hnin : q.orderBy ∉ q.groupBy) :
    (∀ s e, buildAnalyticsSQL { q with orderBy := s } = Except.error e ↔
        buildAnalyticsSQL q = Except.error e) ∧
    (∀ base aliases args, analyticsBaseSQL q = Except.ok (base, aliases, args) →
        computeOrderBy q.orderBy q.groupBy aliases = "value" ∧
        buildAnalyticsSQL q = Except.ok
          (base ++ " ORDER BY " ++ "value" ++ " " ++
            (if q.orderDesc then "DESC" else "ASC") ++
            " LIMIT " ++ toString (analyticsLimit q.limit), args)) ∧
    (∀ s base aliases args, analyticsBaseSQL q = Except.ok (base, aliases, args) →
        computeOrderBy s q.groupBy aliases = "value" ∨
        ∃ i, i < q.groupBy.length ∧ computeOrderBy s q.groupBy aliases = groupAlias i) := by
  refine ⟨?_, ?_, ?_⟩
  · intro s e
    have hbase : analyticsBaseSQL { q with orderBy := s } = analyticsBaseSQL q := rfl
    simp only [buildAnalyticsSQL, Bind.bind, Except.bind, hbase]
    cases h : analyticsBaseSQL q with
    | error e2 => simp
    | ok p =>
      obtain ⟨base, aliases, args⟩ := p
      simp
  · intro base aliases args h
    have hcv : computeOrderBy q.orderBy q.groupBy aliases = "value" := by
      simp only [computeOrderBy, if_neg hne]
      have hfn : (q.groupBy.zip aliases).find? (fun p => p.1 = q.orderBy) = none := by
        rw [List.find?_eq_none]
        intro x hx
        simp only [decide_eq_true_eq]
        intro hx1
        exact hnin (hx1 ▸ (List.of_mem_zip hx).1)
      rw [hfn]
    refine ⟨hcv, ?_⟩
    simp only [buildAnalyticsSQL, Bind.bind, Except.bind, h, hcv]
  · intro s base aliases args h
    have hal := analyticsBaseSQL_aliases q base aliases args h
    by_cases hs : s = ""
    · left
      simp only [computeOrderBy, if_pos hs]
    · cases hf : (q.groupBy.zip aliases).find? (fun p => p.1 = s) with
      | none =>
        left
        simp only [computeOrderBy, if_neg hs, hf]
      | some p =>
        right
        have hmem : p ∈ q.groupBy.zip aliases := List.mem_of_find?_eq_some hf
        have h2 : p.2 ∈ aliases := (List.of_mem_zip hmem).2
        obtain ⟨i, hi, he⟩ := hal p.2 h2
        refine ⟨i, hi, ?_⟩
        simp only [computeOrderBy, if_neg hs, hf]
        exact he

theorem c9_order_by_fallback_witness :
    ("bogus" : String) ≠ "" ∧ "bogus" ∉ ["service"] ∧
    (computeOrderBy "bogus" ["service"] ["group_0"] = "value" ∧
      buildAnalyticsSQL
          ⟨AggregationType.count, "", ["service"], [], goTimeZero, goTimeZero,
            "bogus", false, 0⟩ =
        Except.ok
          ("SELECT count() AS value, service AS group_0 FROM monitor.events GROUP BY group_0 ORDER BY value ASC LIMIT 100",
            [])) :=
  ⟨by decide, by decide,
    (c9_order_by_fallback
        ⟨AggregationType.count, "", ["service"], [], goTimeZero, goTimeZero,
          "bogus", false, 0⟩ (by decide) (by decide)).2.1
      "SELECT count() AS value, service AS group_0 FROM monitor.events GROUP BY group_0"
      ["group_0"] [] rfl⟩

theorem fillLoop_head (pts : List DataPoint) (toT : Int) (interval : IntervalType) (c : Int) :
    (fillLoop pts toT interval c).head? =
      if c > toT then none else some ⟨c, fillValue pts c⟩ := by
  rw [fillLoop]
  by_cases hc : c > toT
  · simp [hc]
  · simp [hc]

theorem fillLoop_eq_fixed (pts : List DataPoint) (toT : Int) (interval : IntervalType)
    (s : Int) (hs : 0 < s) (hstep : ∀ t, advanceTime t interval = t + s) :
    ∀ (k : Nat) (current : Int), current ≤ toT → (toT - current) / s = k →
      fillLoop pts toT interval current =
        (List.range (k + 1)).map
          (fun i => ⟨current + (i : Int) * s, fillValue pts (current + (i : Int) * s)⟩) := by
  intro k
  induction k with
  | zero =>
    intro current hle hdiv
    have hdm := Int.ediv_add_emod (toT - current) s
    rw [hdiv] at hdm
    norm_num at hdm
    have hrs : (toT - current) % s < s := Int.emod_lt_of_pos _ hs
    rw [fillLoop, if_neg (by omega : ¬ current > toT)]
    rw [hstep current]
    rw [fillLoop, if_pos (by linarith : current + s > toT)]
    simp [List.range_succ]
  | succ k ih =>
    intro current hle hdiv
    have hdm := Int.ediv_add_emod (toT - current) s
    rw [hdiv] at hdm
    have hr0 : 0 ≤ (toT - current) % s := Int.emod_nonneg _ (ne_of_gt hs)
    have hsk : (s : Int) ≤ s * ((k : Int) + 1) :=
      le_mul_of_one_le_right (le_of_lt hs) (by omega)
    push_cast at hdm
    have hnext : current + s ≤ toT := by linarith
    rw [fillLoop, if_neg (by omega : ¬ current > toT)]
    rw [hstep current]
    have hdiv2 : (toT - (current + s)) / s = (k : Int) := by
      have h1 : toT - (current + s) = (toT - current) + (-1) * s := by ring
      rw [h1, Int.add_mul_ediv_right _ _ (ne_of_gt hs), hdiv]
      push_cast
      ring
    rw [ih (current + s) hnext hdiv2]
    conv_rhs => rw [List.range_succ_eq_map, List.map_cons, List.map_map]
    congr 1
    · simp
    · apply List.map_congr_left
      intro i hi
      have harg : current + s + (i : Int) * s = current + ((i : Int) + 1) * s := by ring
      simp only [Function.comp, Nat.succ_eq_add_one, DataPoint.mk.injEq]
      push_cast
      rw [harg]
      exact ⟨rfl, rfl⟩

theorem guardStep_pos (interval : IntervalType) : 0 < guardStep interval := by
  cases interval <;> norm_num [guardStep, nsPerMinute, nsPerHour, nsPerSec]

theorem advanceTime_step (interval : IntervalType) (h : interval ≠ IntervalType.month) :
    ∀ t, advanceTime t interval = t + guardStep interval := by
  intro t
  cases interval with
  | minute => rfl
  | hour => rfl
  | day =>
    simp only [advanceTime, guardStep]
    rw [addDate_days]
    norm_num [nsPerDay, nsPerHour, nsPerSec]
  | week =>
    simp only [advanceTime, guardStep]
    rw [addDate_days]
    norm_num [nsPerDay, nsPerHour, nsPerSec]
  | month => exact absurd rfl h

theorem fillLoop_chain (pts : List DataPoint) (toT : Int) (interval : IntervalType) :
    ∀ (n : Nat) (current : Int), (toT + 1 - current).toNat ≤ n →
      List.Chain' (fun a b => b.timestamp = advanceTime a.timestamp interval ∧
        a.timestamp < b.timestamp) (fillLoop pts toT interval current) := by
  intro n
  induction n with
  | zero =>
    intro current h
    rw [fillLoop, if_pos (by omega)]
    exact List.chain'_nil
  | succ n ih =>
    intro current h
    by_cases hc : current > toT
    · rw [fillLoop, if_pos hc]; exact List.chain'_nil
    · rw [fillLoop, if_neg hc]
      have hadv := advanceTime_gt current interval
      rw [List.chain'_cons']
      refine ⟨?_, ih (advanceTime current interval) (by omega)⟩
      intro y hy
      rw [fillLoop_head] at hy
      by_cases h2 : advanceTime current interval > toT
      · rw [if_pos h2] at hy; simp at hy
      · rw [if_neg h2] at hy
        simp only [Option.mem_def, Option.some.injEq] at hy
        rw [← hy]
        exact ⟨rfl, hadv⟩

theorem fillLoop_values (pts : List DataPoint) (toT : Int) (interval : IntervalType) :
    ∀ (n : Nat) (current : Int), (toT + 1 - current).toNat ≤ n →
      ∀ p ∈ fillLoop pts toT interval current, p.value = fillValue pts p.timestamp := by
  intro n
  induction n with
  | zero =>
    intro current h p hp
    rw [fillLoop, if_pos (by omega)] at hp
    simp at hp
  | succ n ih =>
    intro current h p hp
    by_cases hc : current > toT
    · rw [fillLoop, if_pos hc] at hp; simp at hp
    · rw [fillLoop, if_neg hc] at hp
      rcases List.mem_cons.mp hp with h1 | h1
      · rw [h1]
      · exact ih (advanceTime current interval)
          (by have := advanceTime_gt current interval; omega) p h1

theorem fillValue_nil (c : Int) : fillValue [] c = 0 := rfl

theorem fillValue_eq_zero (pts : List DataPoint) (c : Int)
    (h : ∀ p ∈ pts, goUnix p.timestamp ≠ goUnix c) : fillValue pts c = 0 := by
  have hf : pts.filter (fun q => goUnix q.timestamp = goUnix c) = [] := by
    rw [List.filter_eq_nil_iff]
    intro b hb
    simp only [decide_eq_true_eq]
    exact h b hb
  simp [fillValue, hf]

theorem fillValue_of_mem (pts : List DataPoint) (c : Int) (p : DataPoint)
    (hdist : pts.Pairwise (fun a b => goUnix a.timestamp ≠ goUnix b.timestamp))
    (hp : p ∈ pts) (hu : goUnix p.timestamp = goUnix c) :
    fillValue pts c = p.value := by
  induction pts with
  | nil => cases hp
  | cons a rest ih =>
    rw [List.pairwise_cons] at hdist
    obtain ⟨ha, hrest⟩ := hdist
    rcases List.mem_cons.mp hp with h1 | h1
    · subst h1
      have hrf : rest.filter (fun q => goUnix q.timestamp = goUnix c) = [] := by
        rw [List.filter_eq_nil_iff]
        intro b hb
        simp only [decide_eq_true_eq]
        intro hbu
        exact ha b hb (by rw [hu, hbu])
      simp [fillValue, List.filter_cons, hu, hrf]
    · have hane : ¬ (goUnix a.timestamp = goUnix c) := by
        intro hau
        exact ha p h1 (by rw [hau, hu])
      simp only [fillValue, List.filter_cons]
      rw [if_neg (by simpa using hane)]
      exact ih hrest h1

theorem fillLoop_pairwise (pts : List DataPoint) (toT : Int) (interval : IntervalType)
    (current : Int) :
    (fillLoop pts toT interval current).Pairwise (fun a b => a.timestamp < b.timestamp) := by
  have hch := fillLoop_chain pts toT interval (toT + 1 - current).toNat current le_rfl
  have hlt : List.Chain' (fun a b : DataPoint => a.timestamp < b.timestamp)
      (fillLoop pts toT interval current) := List.Chain'.imp (fun a b h => h.2) hch
  haveI : IsTrans DataPoint (fun a b => a.timestamp < b.timestamp) :=
    ⟨fun a b c hab hbc => lt_trans hab hbc⟩
  exact List.chain'_iff_pairwise.mp hlt

/-- From the spec's words for C4, not from the source: the claimed point
count `⌈(to − truncate(from, interval)) / step⌉ + 1`, with the ceiling
taken over the interval's nominal step. -/
def specFillPointCount (fromT toT : Int) (interval : IntervalType) : Int :=
  (toT - truncateTime fromT interval + guardStep interval - 1) / guardStep interval + 1

/-- C4 counterexample: for `from = epoch`, `to = epoch + 90 s` and
minute buckets, the zero-fill loop emits 2 points (buckets at 0 s and
60 s), while the spec's ceiling formula demands
`⌈90 s / 60 s⌉ + 1 = 3`. -/
theorem c4_counterexample :
    (fillTimeSeriesZeros [] 0 (90 * nsPerSec) IntervalType.minute).length = 2 ∧
    specFillPointCount 0 (90 * nsPerSec) IntervalType.minute = 3 := by
  constructor
  · rw [fillTimeSeriesZeros,
      show truncateTime 0 IntervalType.minute = 0 from by decide]
    rw [fillLoop_eq_fixed [] (90 * nsPerSec) IntervalType.minute nsPerMinute
      (by decide) (fun t => rfl) 1 0 (by decide) (by decide)]
    simp
  · decide

/-- C4 (amended): with `fill_zeros` and both bounds set and
`truncate(from, interval) ≤ to`, a fixed-step interval (minute, hour,
day, week) fills each series to exactly
`⌊(to − truncate(from, interval)) / step⌋ + 1` points — floor, not the
spec's ceiling — forming the arithmetic progression
`truncate(from) + i·step`; for every interval the emitted buckets start
at `truncate(from, interval)`, advance by one interval step, and are
strictly increasing; a bucket keeps the value of a query point sharing
its Unix second (when those seconds are distinct keys) and any other
bucket has value 0; and with no series at all exactly one synthetic
series is emitted, all of whose points have value 0. -/
theorem c4_fill_zeros (q : TimeSeriesQuery)
    (hfz : q.fillZeros = true) (hf : q.fromT ≠ goTimeZero) (ht : q.toT ≠ goTimeZero)
    (hle : truncateTime q.fromT q.interval ≤ q.toT) :
    (∀ pts, q.interval ≠ IntervalType.month →
      fillTimeSeriesZeros pts q.fromT q.toT q.interval =
        (List.range
            (((q.toT - truncateTime q.fromT q.interval) / guardStep q.interval).toNat + 1)).map
          (fun i => ⟨truncateTime q.fromT q.interval + (i : Int) * guardStep q.interval,
            fillValue pts
              (truncateTime q.fromT q.interval + (i : Int) * guardStep q.interval)⟩)) ∧
    (∀ pts, q.interval ≠ IntervalType.month →
      (fillTimeSeriesZeros pts q.fromT q.toT q.interval).length =
        ((q.toT - truncateTime q.fromT q.interval) / guardStep q.interval).toNat + 1) ∧
    (∀ pts, (fillTimeSeriesZeros pts q.fromT q.toT q.interval).head? =
      some ⟨truncateTime q.fromT q.interval,
        fillValue pts (truncateTime q.fromT q.interval)⟩) ∧
    (∀ pts, List.Chain' (fun a b =>
        b.timestamp = advanceTime a.timestamp q.interval ∧ a.timestamp < b.timestamp)
      (fillTimeSeriesZeros pts q.fromT q.toT q.interval)) ∧
    (∀ pts, (fillTimeSeriesZeros pts q.fromT q.toT q.interval).Pairwise
        (fun a b => a.timestamp < b.timestamp)) ∧
    (∀ pts b, pts.Pairwise (fun a c => goUnix a.timestamp ≠ goUnix c.timestamp) →
      b ∈ fillTimeSeriesZeros pts q.fromT q.toT q.interval →
      ∀ p ∈ pts, goUnix p.timestamp = goUnix b.timestamp → b.value = p.value) ∧
    (∀ pts b, b ∈ fillTimeSeriesZeros pts q.fromT q.toT q.interval →
      (∀ p ∈ pts, goUnix p.timestamp ≠ goUnix b.timestamp) → b.value = 0) ∧
    (finishTimeSeries [] q =
        [⟨"", fillTimeSeriesZeros [] q.fromT q.toT q.interval⟩] ∧
      ∀ p ∈ fillTimeSeriesZeros [] q.fromT q.toT q.interval, p.value = 0) ∧
    (∀ raw, raw ≠ [] → finishTimeSeries raw q = raw.map (fun ts =>
      { ts with dataPoints := fillTimeSeriesZeros ts.dataPoints q.fromT q.toT q.interval })) := by
  have hlist : ∀ pts, q.interval ≠ IntervalType.month →
      fillTimeSeriesZeros pts q.fromT q.toT q.interval =
        (List.range
            (((q.toT - truncateTime q.fromT q.interval) / guardStep q.interval).toNat + 1)).map
          (fun i => ⟨truncateTime q.fromT q.interval + (i : Int) * guardStep q.interval,
            fillValue pts
              (truncateTime q.fromT q.interval + (i : Int) * guardStep q.interval)⟩) := by
    intro pts hm
    have hs := guardStep_pos q.interval
    have hstep := advanceTime_step q.interval hm
    have hnn : 0 ≤ (q.toT - truncateTime q.fromT q.interval) / guardStep q.interval :=
      Int.ediv_nonneg (by omega) (le_of_lt hs)
    rw [fillTimeSeriesZeros]
    exact fillLoop_eq_fixed pts q.toT q.interval (guardStep q.interval) hs hstep
      ((q.toT - truncateTime q.fromT q.interval) / guardStep q.interval).toNat
      (truncateTime q.fromT q.interval) hle (Int.toNat_of_nonneg hnn).symm
  refine ⟨hlist, ?_, ?_, ?_, ?_, ?_, ?_, ?_, ?_⟩
  · intro pts hm
    rw [hlist pts hm]
    simp
  · intro pts
    rw [fillTimeSeriesZeros, fillLoop_head]
    rw [if_neg (by omega : ¬ truncateTime q.fromT q.interval > q.toT)]
  · intro pts
    rw [fillTimeSeriesZeros]
    exact fillLoop_chain pts q.toT q.interval
      ((q.toT + 1 - truncateTime q.fromT q.interval).toNat)
      (truncateTime q.fromT q.interval) le_rfl
  · intro pts
    rw [fillTimeSeriesZeros]
    exact fillLoop_pairwise pts q.toT q.interval (truncateTime q.fromT q.interval)
  · intro pts b hdist hb p hp hu
    have hbv := fillLoop_values pts q.toT q.interval
      ((q.toT + 1 - truncateTime q.fromT q.interval).toNat)
      (truncateTime q.fromT q.interval) le_rfl b hb
    rw [hbv]
    exact fillValue_of_mem pts b.timestamp p hdist hp hu
  · intro pts b hb hnone
    have hbv := fillLoop_values pts q.toT q.interval
      ((q.toT + 1 - truncateTime q.fromT q.interval).toNat)
      (truncateTime q.fromT q.interval) le_rfl b hb
    rw [hbv]
    exact fillValue_eq_zero pts b.timestamp hnone
  · constructor
    · simp only [finishTimeSeries, List.map_nil, List.length_nil]
      rw [if_pos ⟨trivial, hfz, hf, ht⟩]
    · intro p hp
      have hpv := fillLoop_values [] q.toT q.interval
        ((q.toT + 1 - truncateTime q.fromT q.interval).toNat)
        (truncateTime q.fromT q.interval) le_rfl p hp
      rw [hpv, fillValue_nil]
  · intro raw hraw
    simp only [finishTimeSeries]
    rw [if_neg (by
      rintro ⟨hc, -⟩
      rw [List.length_map] at hc
      exact hraw (List.length_eq_zero.mp hc))]
    apply List.map_congr_left
    intro ts hts
    rw [if_pos ⟨hfz, hf, ht⟩]

theorem c4_fill_zeros_witness :
    (0 : Int) ≠ goTimeZero ∧ 90 * nsPerSec ≠ goTimeZero ∧
    truncateTime 0 IntervalType.minute ≤ 90 * nsPerSec ∧
    (fillTimeSeriesZeros [] 0 (90 * nsPerSec) IntervalType.minute).length =
      ((90 * nsPerSec - truncateTime 0 IntervalType.minute) /
        guardStep IntervalType.minute).toNat + 1 :=
  ⟨by decide, by decide, by decide,
    (c4_fill_zeros
        ⟨AggregationType.count, "", IntervalType.minute, [], [], 0, 90 * nsPerSec, true⟩
        rfl (by decide) (by decide) (by decide)).2.1 [] (by decide)⟩
